import Mathlib

/-!
IoT health-monitoring node (`src/main.cpp`): filters, PPG processor, scheduler.

A shallow embedding of the firmware's signal-conditioning pipeline and of its
cooperative scheduler.

Modelling conventions.

* `float` values are modelled in exact arithmetic: a `Flt` is either `nan` or a
  rational number.  The infinities are not modelled.  Every division
  in the program is guarded so that its divisor is non-zero; the model sends a
  division by zero to `nan`.  Comparisons with `nan` are false, as in C.
  Decimal literals such as `0.95f` are read as the decimal they denote.
* Rounding to binary32 is modelled where it decides an integer the program
  reports from a given float: in `spo2FromR`, whose two operations are rounded
  by `rnd32`.  The sums `spo2 + 0.5f` and `x + 0.5f` that precede the conversions
  to `int` are, on the ranges `[70, 100]` and `[20, 220]`, exact in binary32 or
  rounded without change of the integer part, and are left exact.  The filters
  keep exact arithmetic.
* `uint32_t` and (on the ESP8266 target) `unsigned long` are natural numbers
  with explicit reduction modulo `2^32`.
* `millis()`, the Wi-Fi status, the sensor readings and the HTTP client are the
  environment: each call is an explicit argument of the model.  Calls made on
  collaborators (`WiFi.begin`, `http.POST`, serial diagnostics, sensor reads)
  are returned as a list of events.
-/

namespace HealthNode

/-! ## Exact-arithmetic floats -/

/-- A `float` in exact arithmetic: not-a-number, or a rational value. -/
inductive Flt where
  | nan : Flt
  | val (q : ℚ) : Flt
  deriving DecidableEq

namespace Flt

/-- C `isnan`. -/
def isnan : Flt → Bool
  | nan => true
  | val _ => false

/-- Float addition. -/
def add : Flt → Flt → Flt
  | val a, val b => val (a + b)
  | _, _ => nan

/-- Float subtraction. -/
def sub : Flt → Flt → Flt
  | val a, val b => val (a - b)
  | _, _ => nan

/-- Float multiplication. -/
def mul : Flt → Flt → Flt
  | val a, val b => val (a * b)
  | _, _ => nan

/-- Float division; the program never divides by zero, the model yields `nan` there. -/
def div : Flt → Flt → Flt
  | val a, val b => if b = 0 then nan else val (a / b)
  | _, _ => nan

/-- C `fabsf`. -/
def fabsf : Flt → Flt
  | val a => val |a|
  | nan => nan

/-- C `x > y` on floats (false when either side is NaN). -/
def gt : Flt → Flt → Bool
  | val a, val b => decide (b < a)
  | _, _ => false

/-- C `x < y` on floats (false when either side is NaN). -/
def lt : Flt → Flt → Bool
  | val a, val b => decide (a < b)
  | _, _ => false

/-- Conversion of an unsigned or int value to `float`, as in `(float)n`. -/
def ofNat (n : Nat) : Flt := val (n : ℚ)

/-- C `(int)x`: truncation toward zero.  The program only converts non-NaN values;
the model yields `0` on `nan`. -/
def toInt : Flt → Int
  | val a => if 0 ≤ a then ⌊a⌋ else ⌈a⌉
  | nan => 0

end Flt

open Flt (nan val)

instance : Add Flt := ⟨Flt.add⟩
instance : Zero Flt := ⟨val 0⟩

/-- Float addition is associative and commutative in exact arithmetic, with unit `0`. -/
instance : AddCommMonoid Flt where
  nsmul := nsmulRec
  add_assoc := by
    intro a b c
    cases a <;> cases b <;> cases c <;>
      first
        | rfl
        | exact congrArg val (add_assoc _ _ _)
  zero_add := by
    intro a
    cases a
    · rfl
    · exact congrArg val (zero_add _)
  add_zero := by
    intro a
    cases a
    · rfl
    · exact congrArg val (add_zero _)
  add_comm := by
    intro a b
    cases a <;> cases b <;>
      first
        | rfl
        | exact congrArg val (add_comm _ _)

instance : Sub Flt := ⟨Flt.sub⟩
instance : Mul Flt := ⟨Flt.mul⟩
instance : Div Flt := ⟨Flt.div⟩

/-! ## Filter primitives (`src/main.cpp`, lines 77-79) -/

/-- Source `struct EMA { float y=NAN, a; ... }`. -/
structure EMA where
  y : Flt
  a : Flt
  deriving DecidableEq

/-- Source constructor `EMA(float alpha) : a(alpha) {}` with `y = NAN`. -/
def EMA.new (alpha : Flt) : EMA := ⟨nan, alpha⟩

/-- Source `EMA::step`:
`if (isnan(y)) y = x;  y = a*y + (1-a)*x;  return y;`.
Returns the updated filter and the returned value. -/
def EMA.step (e : EMA) (x : Flt) : EMA × Flt :=
  let y1 := if e.y.isnan then x else e.y
  let y2 := e.a * y1 + (val 1 - e.a) * x
  ({ e with y := y2 }, y2)

/-- Source `template<int N> struct MovAvg { float buf[N]; int idx=0, cnt=0; ... }`.
The window size `N` is an argument of `new` and `push`. -/
structure MovAvg where
  buf : List Flt
  idx : Nat
  cnt : Nat
  deriving DecidableEq

/-- Source constructor `MovAvg() { for (int i=0;i<N;i++) buf[i]=0; }`. -/
def MovAvg.new (N : Nat) : MovAvg := ⟨List.replicate N (val 0), 0, 0⟩

/-- Source `MovAvg<N>::push`:
`buf[idx]=v; idx=(idx+1)%N; if(cnt<N) cnt++; float s=0;
 for(int i=0;i<cnt;i++) s+=buf[i]; return s/(float)cnt;`.
Returns the updated window and the returned mean. -/
def MovAvg.push (N : Nat) (m : MovAvg) (v : Flt) : MovAvg × Flt :=
  let buf := m.buf.set m.idx v
  let idx := (m.idx + 1) % N
  let cnt := if m.cnt < N then m.cnt + 1 else m.cnt
  let s := (List.range cnt).foldl (fun s i => s + buf.getD i (val 0)) (val 0)
  (⟨buf, idx, cnt⟩, s / Flt.ofNat cnt)

/-- Push a sequence of values in order; returns the final window and the value
returned by the last push (`nan` when nothing was pushed). -/
def MovAvg.pushAll (N : Nat) (m : MovAvg) (vs : List Flt) : MovAvg × Flt :=
  vs.foldl (fun st v => MovAvg.push N st.1 v) (m, nan)

/-- Feed a sequence of inputs in order; returns the final filter and the value
returned by the last call (`nan` when there was no call). -/
def EMA.stepAll (e : EMA) (xs : List Flt) : EMA × Flt :=
  xs.foldl (fun st x => EMA.step st.1 x) (e, nan)

/-! ## PPG processor (`src/main.cpp`, lines 66-75, 270-334) -/

/-- Source `emaAlphaDC = 0.95f`. -/
def emaAlphaDC : Flt := val (95 / 100)
/-- Source `emaAlphaAC = 0.70f`. -/
def emaAlphaAC : Flt := val (70 / 100)
/-- Source coefficient `0.90f` of `acRmsIR` and `acRmsRED`. -/
def emaAlphaRms : Flt := val (90 / 100)
/-- Source `avgWinHR = 5`. -/
def avgWinHR : Nat := 5
/-- Source `avgWinR = 8`. -/
def avgWinR : Nat := 8
/-- Source `thrFactor = 0.55f`. -/
def thrFactor : Flt := val (55 / 100)
/-- Source `minBeatMs = 300`. -/
def minBeatMs : Nat := 300
/-- Source `maxBeatMs = 2000`. -/
def maxBeatMs : Nat := 2000

/-- Unsigned 32-bit subtraction `a - b` of two values below `2^32`. -/
def u32sub (a b : Nat) : Nat := (a + 4294967296 - b) % 4294967296

/-- Unsigned 32-bit addition `a + b`. -/
def u32add (a b : Nat) : Nat := (a + b) % 4294967296

/-- Round to the nearest integer, ties to the even one. -/
def roundEven (q : ℚ) : ℤ :=
  if q - (⌊q⌋ : ℚ) < 1 / 2 then ⌊q⌋
  else if 1 / 2 < q - (⌊q⌋ : ℚ) then ⌊q⌋ + 1
  else if ⌊q⌋ % 2 = 0 then ⌊q⌋ else ⌊q⌋ + 1

/-- The binary32 value nearest to `q` (round to nearest, ties to even): 24
significant bits, the unit in the last place being `2^(e-23)` for `2^e ≤ |q| < 2^(e+1)`
and `2^(-149)` below `2^(-126)`.  Overflow to infinity (`|q| ≥ 2^128`) is not
modelled. -/
def rnd32 (q : ℚ) : ℚ :=
  if q = 0 then 0
  else (roundEven (q / (2 : ℚ) ^ (max (Int.log 2 |q|) (-126) - 23)) : ℚ)
        * (2 : ℚ) ^ (max (Int.log 2 |q|) (-126) - 23)

/-- Rounding of the exact result of one float operation to binary32. -/
def Flt.rnd : Flt → Flt
  | val q => val (rnd32 q)
  | nan => nan

/-- Source `spo2FromR`: `110.0f - 25.0f * R`, the product and the difference each
rounded to binary32. -/
def spo2FromR (R : Flt) : Flt := Flt.rnd (val 110 - Flt.rnd (val 25 * R))

/-- Source `bpmToInt`:
`if (isnan(x) || x<20 || x>220) return 0;  return (int)(x+0.5f);`. -/
def bpmToInt (x : Flt) : Int :=
  if x.isnan || x.lt (val 20) || x.gt (val 220) then 0
  else (x + val (5 / 10)).toInt

/-- Lines 308-313 of `processSample`: the local `spo2` computed from `R_smooth`
(`NAN` when `R_smooth` is NaN, else `spo2FromR` clamped to `[70, 100]`). -/
def spo2Clamped (R_smooth : Flt) : Flt :=
  if !R_smooth.isnan then
    let spo2 := spo2FromR R_smooth
    let spo2 := if spo2.gt (val 100) then val 100 else spo2
    if spo2.lt (val 70) then val 70 else spo2
  else nan

/-- Line 328 of `processSample`: `isnan(spo2) ? 0 : (int)(spo2 + 0.5f)`. -/
def spo2ToInt (spo2 : Flt) : Int :=
  if spo2.isnan then 0 else (spo2 + val (5 / 10)).toInt

/-- The state `processSample` reads and writes: its function-local statics
(which shadow the globals of the same names), the global `bpmInstant` and the
four `latest*` values. -/
structure PPG where
  dcIR : EMA
  dcRED : EMA
  acIR : EMA
  acRED : EMA
  acRmsIR : EMA
  acRmsRED : EMA
  hrAvg : MovAvg
  rAvg : MovAvg
  wasAbove : Bool
  lastBeatMs : Nat
  R_smooth : Flt
  bpmInstant : Flt
  latestIR : Nat
  latestRED : Nat
  latestBPM : Int
  latestSpO2 : Int
  deriving DecidableEq

/-- State before the first call of `processSample`. -/
def PPG.init : PPG where
  dcIR := EMA.new emaAlphaDC
  dcRED := EMA.new emaAlphaDC
  acIR := EMA.new emaAlphaAC
  acRED := EMA.new emaAlphaAC
  acRmsIR := EMA.new emaAlphaRms
  acRmsRED := EMA.new emaAlphaRms
  hrAvg := MovAvg.new avgWinHR
  rAvg := MovAvg.new avgWinR
  wasAbove := false
  lastBeatMs := 0
  R_smooth := nan
  bpmInstant := nan
  latestIR := 0
  latestRED := 0
  latestBPM := 0
  latestSpO2 := 0

/-- Automatic (non-static) locals of one `processSample` call. -/
structure Locals where
  dc_ir : Flt
  dc_red : Flt
  ac_ir : Flt
  ac_red : Flt
  rmsIR : Flt
  rmsRED : Flt
  thr : Flt
  above : Bool
  risingEdge : Bool
  dt : Nat
  accepted : Bool
  ratio_ir : Flt
  ratio_red : Flt
  R : Flt
  spo2 : Flt

/-- One raw sample and the `millis()` reading taken while it is processed
(all three are `uint32_t`, so below `2^32`). -/
structure Sample where
  irRaw : Nat
  redRaw : Nat
  now : Nat
  deriving DecidableEq

/-- Source `processSample(irRaw, redRaw)`, with `now` the value `millis()` returns
at line 286.  Returns the new state and the locals of the call; `dt` is the
difference `now - lastBeatMs` the rising-edge branch computes and `accepted`
says that the branch at line 295 was taken.  Serial debug output is omitted. -/
def processSampleAux (s : PPG) (x : Sample) : PPG × Locals :=
  let r1 := s.dcIR.step (Flt.ofNat x.irRaw)
  let dc_ir := r1.2
  let r2 := s.dcRED.step (Flt.ofNat x.redRaw)
  let dc_red := r2.2
  let r3 := s.acIR.step (Flt.ofNat x.irRaw - dc_ir)
  let ac_ir := r3.2
  let r4 := s.acRED.step (Flt.ofNat x.redRaw - dc_red)
  let ac_red := r4.2
  let r5 := s.acRmsIR.step ac_ir.fabsf
  let rmsIR := r5.2
  let r6 := s.acRmsRED.step ac_red.fabsf
  let rmsRED := r6.2
  let thr := thrFactor * rmsIR
  let above := ac_ir.gt thr
  let risingEdge := above && !s.wasAbove && ac_ir.gt (val 0)
  let dt := u32sub x.now s.lastBeatMs
  let accepted := risingEdge && decide (minBeatMs < dt) && decide (dt < maxBeatMs)
  let hr := if accepted then s.hrAvg.push avgWinHR (val 60000 / Flt.ofNat dt)
            else (s.hrAvg, s.bpmInstant)
  let lastBeatMs := if risingEdge then x.now else s.lastBeatMs
  let ratio_ir := if dc_ir.gt (val 1) then ac_ir.fabsf / dc_ir else val 0
  let ratio_red := if dc_red.gt (val 1) then ac_red.fabsf / dc_red else val 0
  let R := if ratio_ir.gt (val (1 / 1000000)) then ratio_red / ratio_ir else nan
  let rr := if !R.isnan then s.rAvg.push avgWinR R else (s.rAvg, s.R_smooth)
  let spo2 := spo2Clamped rr.2
  ({ dcIR := r1.1, dcRED := r2.1, acIR := r3.1, acRED := r4.1,
     acRmsIR := r5.1, acRmsRED := r6.1,
     hrAvg := hr.1, rAvg := rr.1,
     wasAbove := above, lastBeatMs := lastBeatMs,
     R_smooth := rr.2, bpmInstant := hr.2,
     latestIR := x.irRaw, latestRED := x.redRaw,
     latestBPM := bpmToInt hr.2, latestSpO2 := spo2ToInt spo2 },
   { dc_ir := dc_ir, dc_red := dc_red, ac_ir := ac_ir, ac_red := ac_red,
     rmsIR := rmsIR, rmsRED := rmsRED, thr := thr, above := above,
     risingEdge := risingEdge, dt := dt, accepted := accepted,
     ratio_ir := ratio_ir, ratio_red := ratio_red, R := R, spo2 := spo2 })

/-- Source `processSample`: the state after the call. -/
def processSample (s : PPG) (x : Sample) : PPG := (processSampleAux s x).1

/-- Feed a sequence of samples, in order. -/
def PPG.run (s : PPG) : List Sample → PPG
  | [] => s
  | x :: xs => PPG.run (processSample s x) xs

/-- Some call of the run accepted a beat (took the branch at line 295). -/
def PPG.everAccepted (s : PPG) : List Sample → Bool
  | [] => false
  | x :: xs => (processSampleAux s x).2.accepted || PPG.everAccepted (processSample s x) xs

/-- Some call of the run had a defined `R` (`ratio_ir > 1e-6`). -/
def PPG.everDefinedR (s : PPG) : List Sample → Bool
  | [] => false
  | x :: xs =>
    (processSampleAux s x).2.ratio_ir.gt (val (1 / 1000000))
      || PPG.everDefinedR (processSample s x) xs

/-- State after the first sample `(ir, red) = (1000, 1000)` processed at clock 0. -/
def afterFirstSample : PPG := processSample PPG.init ⟨1000, 1000, 0⟩

/-! ## Cooperative scheduler (`src/main.cpp`, lines 16, 45-51, 96-206, 248-268) -/

/-- Source `SEND_PERIOD_MS = 2000`. -/
def SEND_PERIOD_MS : Nat := 2000

/-- Modelled from the spec: the constant `DEVICE_DISCONNECTED_C` of the
DallasTemperature library is not under `src/`; the spec gives the disconnected
sentinel of the contact probe as `-127`. -/
def DEVICE_DISCONNECTED_C : Flt := val (-127)

/-- C `x != y` on floats (true when either side is NaN). -/
def Flt.ne : Flt → Flt → Bool
  | val a, val b => decide (a ≠ b)
  | _, _ => true

/-- The values a transmission snapshots (lines 158-164). -/
structure Snapshot where
  IR : Nat
  RED : Nat
  BPM : Int
  SPO2 : Int
  tDHT : Flt
  hDHT : Flt
  tDS : Flt
  deriving DecidableEq

/-- Calls made on collaborators, in program order. -/
inductive Event where
  /-- The calls `dht.readTemperature()` and `dht.readHumidity()` (lines 103-104). -/
  | dhtRead
  /-- The calls `ds.getTempCByIndex(0)` and `ds.requestTemperatures()` (lines 114-116). -/
  | dsRead
  /-- Serial line "[Wi-Fi] Not connected, retrying..." (line 127). -/
  | logRetry
  /-- The call `WiFi.begin(WIFI_SSID, WIFI_PASS)` of `ensureWiFi` (line 128). -/
  | wifiBegin
  /-- Serial line "[POST] Skipped (no Wi-Fi)" (line 153). -/
  | logSkipped
  /-- Serial line "[POST] begin() failed" (line 194). -/
  | logBeginFailed
  /-- The call `http.POST(payload)` (line 199) with the values the payload is built from. -/
  | post (snap : Snapshot)
  /-- Serial line "[POST] code=..." (line 200). -/
  | logCode (code : Int)
  deriving DecidableEq

/-- Environmental value buffers and timers (lines 45-51). -/
structure EnvState where
  dhtTemp : Flt
  dhtHum : Flt
  dsTemp : Flt
  nextDhtMs : Nat
  dsReadyAt : Nat
  deriving DecidableEq

/-- What the environment answers during one `serviceEnvSensors` call. -/
structure EnvIn where
  /-- Reading `millis()` at line 101. -/
  now : Nat
  /-- Reading `dht.readTemperature()`. -/
  t : Flt
  /-- Reading `dht.readHumidity()`. -/
  h : Flt
  /-- Reading `millis()` at line 112. -/
  now2 : Nat
  /-- Reading `ds.getTempCByIndex(0)`. -/
  tC : Flt

/-- Source `serviceEnvSensors` (with `USE_DHT` and `USE_DS18B20` set):
`if (now >= nextDhtMs) { ...; nextDhtMs = now + 2000; }` and
`if (now2 >= dsReadyAt) { ...; dsReadyAt = now2 + 750; }` on 32-bit
`unsigned long`. -/
def serviceEnvSensors (s : EnvState) (e : EnvIn) : EnvState × List Event :=
  let r1 : EnvState × List Event :=
    if s.nextDhtMs ≤ e.now then
      ({ s with dhtTemp := if !e.t.isnan then e.t else s.dhtTemp,
                dhtHum := if !e.h.isnan then e.h else s.dhtHum,
                nextDhtMs := u32add e.now 2000 }, [Event.dhtRead])
    else (s, [])
  let s1 := r1.1
  let r2 : EnvState × List Event :=
    if s1.dsReadyAt ≤ e.now2 then
      ({ s1 with dsTemp := if e.tC.ne DEVICE_DISCONNECTED_C then e.tC else s1.dsTemp,
                 dsReadyAt := u32add e.now2 750 }, [Event.dsRead])
    else (s1, [])
  (r2.1, r1.2 ++ r2.2)

/-- Send timer `lastSendMs` (line 96) and the static `lastAttempt` of `ensureWiFi`. -/
structure NetState where
  lastSendMs : Nat
  lastAttempt : Nat
  deriving DecidableEq

/-- What the environment answers during one `sendIfDue` call. -/
structure NetIn where
  /-- Reading `millis()` at line 147. -/
  now : Nat
  /-- Whether `WiFi.status() == WL_CONNECTED` at line 124. -/
  connected1 : Bool
  /-- Reading `millis()` at line 126. -/
  m1 : Nat
  /-- Reading `millis()` at line 129. -/
  m2 : Nat
  /-- Whether `WiFi.status() == WL_CONNECTED` at line 152. -/
  connected2 : Bool
  /-- Result of `http.begin(client, SERVER_URL)`. -/
  beginOk : Bool
  /-- Result of `http.POST(payload)`. -/
  code : Int

/-- Source `ensureWiFi`, on the static `lastAttempt`:
`if (WiFi.status() != WL_CONNECTED) if (millis() - lastAttempt > 5000)
 { println; WiFi.begin(..); lastAttempt = millis(); }`. -/
def ensureWiFi (lastAttempt : Nat) (e : NetIn) : Nat × List Event :=
  if !e.connected1 then
    if 5000 < u32sub e.m1 lastAttempt then
      (e.m2, [Event.logRetry, Event.wifiBegin])
    else (lastAttempt, [])
  else (lastAttempt, [])

/-- Source `sendIfDue`.  The payload text and the timestamp are not modelled;
the `post` event carries the snapshot of lines 158-164, and the serial line that
echoes the response body (lines 201-204) is omitted. -/
def sendIfDue (s : NetState) (snap : Snapshot) (e : NetIn) : NetState × List Event :=
  if u32sub e.now s.lastSendMs < SEND_PERIOD_MS then (s, [])
  else
    let w := ensureWiFi s.lastAttempt e
    let s1 : NetState := { lastSendMs := e.now, lastAttempt := w.1 }
    if !e.connected2 then (s1, w.2 ++ [Event.logSkipped])
    else if !e.beginOk then (s1, w.2 ++ [Event.logBeginFailed])
    else (s1, w.2 ++ [Event.post snap, Event.logCode e.code])

/-- The whole mutable state of the node. -/
structure Sys where
  ppg : PPG
  env : EnvState
  net : NetState
  deriving DecidableEq

/-- State after `setup()`, where `m` is the `millis()` reading at line 242. -/
def Sys.boot (m : Nat) : Sys where
  ppg := PPG.init
  env := { dhtTemp := nan, dhtHum := nan, dsTemp := DEVICE_DISCONNECTED_C,
           nextDhtMs := 0, dsReadyAt := u32add m 750 }
  net := { lastSendMs := 0, lastAttempt := 0 }

/-- Lines 158-164: the values `sendIfDue` reads from the globals. -/
def Sys.snapshot (s : Sys) : Snapshot where
  IR := s.ppg.latestIR
  RED := s.ppg.latestRED
  BPM := s.ppg.latestBPM
  SPO2 := s.ppg.latestSpO2
  tDHT := s.env.dhtTemp
  hDHT := s.env.dhtHum
  tDS := s.env.dsTemp

/-- What the environment answers during one `loop()` call. -/
structure LoopIn where
  env : EnvIn
  /-- Result of `ppg.check()`. -/
  check : Bool
  /-- The samples the `while (ppg.available())` loop drains, each with the
  `millis()` reading of its `processSample` call. -/
  samples : List Sample
  net : NetIn

/-- Source `loop()` (with `USE_MAX3010X` set). -/
def loop (s : Sys) (i : LoopIn) : Sys × List Event :=
  let r := serviceEnvSensors s.env i.env
  let s1 : Sys := { s with env := r.1 }
  if !i.check then
    let n := sendIfDue s1.net s1.snapshot i.net
    ({ s1 with net := n.1 }, r.2 ++ n.2)
  else
    let s2 : Sys := { s1 with ppg := s1.ppg.run i.samples }
    let n := sendIfDue s2.net s2.snapshot i.net
    ({ s2 with net := n.1 }, r.2 ++ n.2)

/-! ## Executions of the transmitter in real time -/

/-- One `sendIfDue` call placed in real time: `tnow`, `t1`, `t2` are the
instants (milliseconds since boot, unbounded) at which lines 147, 126 and 129
read `millis()`; the 32-bit counter shows them modulo `2^32`. -/
structure NetCall where
  tnow : Nat
  t1 : Nat
  t2 : Nat
  connected1 : Bool
  connected2 : Bool
  beginOk : Bool
  code : Int
  snap : Snapshot

/-- The answers of the environment during the call. -/
def NetCall.toIn (c : NetCall) : NetIn where
  now := c.tnow % 4294967296
  connected1 := c.connected1
  m1 := c.t1 % 4294967296
  m2 := c.t2 % 4294967296
  connected2 := c.connected2
  beginOk := c.beginOk
  code := c.code

/-- Time does not run backwards: within each call `tnow ≤ t1 ≤ t2`, and the calls
follow one another, the first not before `t`. -/
def Chrono (t : Nat) : List NetCall → Prop
  | [] => True
  | c :: cs => t ≤ c.tnow ∧ c.tnow ≤ c.t1 ∧ c.t1 ≤ c.t2 ∧ Chrono c.t2 cs

/-- Run `sendIfDue` over a sequence of calls; returns the final state and all events. -/
def runSend (s : NetState) : List NetCall → NetState × List Event
  | [] => (s, [])
  | c :: cs =>
    let r := sendIfDue s c.snap c.toIn
    let q := runSend r.1 cs
    (q.1, r.2 ++ q.2)

/-- The reconnect initiations of a run: for every call in which `ensureWiFi`
calls `WiFi.begin`, the real instants `(t1, t2)` of the two `millis()` reads
that bracket the call. -/
def attempts (s : NetState) : List NetCall → List (Nat × Nat)
  | [] => []
  | c :: cs =>
    let r := sendIfDue s c.snap c.toIn
    if Event.wifiBegin ∈ r.2 then (c.t1, c.t2) :: attempts r.1 cs
    else attempts r.1 cs

/-- An event is an HTTP POST. -/
def Event.isPost : Event → Bool
  | Event.post _ => true
  | _ => false

/-- Link down for the whole call. -/
def NetCall.down (c : NetCall) : Prop := c.connected1 = false ∧ c.connected2 = false

/-- A check at instant `t`, all clock reads of the call showing `t`, link down. -/
def downCheck (snap : Snapshot) (t : Nat) : NetCall where
  tnow := t
  t1 := t
  t2 := t
  connected1 := false
  connected2 := false
  beginOk := true
  code := 0
  snap := snap

/-- Checks at `t, t + period, ..., t + (n-1) * period` with the link down. -/
def downChecks (snap : Snapshot) (period : Nat) : Nat → Nat → List NetCall
  | 0, _ => []
  | n + 1, t => downCheck snap t :: downChecks snap period n (t + period)

/-- Number of reconnect initiations over `n` checks at `t, t + 2000, ...`, all of
them due and with the link down, when `la` is the value of `lastAttempt`: the
condition of line 126 evaluated check after check. -/
def cooldownCount (la : Nat) : Nat → Nat → Nat
  | 0, _ => 0
  | n + 1, t =>
    if 5000 < u32sub (t % 4294967296) la
    then 1 + cooldownCount (t % 4294967296) n (t + 2000)
    else cooldownCount la n (t + 2000)

/-! ## Reference notions used by the statements -/

/-- The last `m` elements of a list. -/
def lastN (m : Nat) (l : List ℚ) : List ℚ := l.drop (l.length - m)

/-- Arithmetic mean of a list of rationals. -/
def mean (l : List ℚ) : ℚ := l.sum / (l.length : ℚ)

/-- The window `m` holds the history `hist` of pushed values (oldest first):
the counters are those of `hist.length` pushes, the buffer read from the cursor
onwards and wrapped around is the last `N` entries of the zero-padded history,
and the slots not yet counted are still zero. -/
def MovAvg.Holds (N : Nat) (m : MovAvg) (hist : List Flt) : Prop :=
  m.cnt = min hist.length N
  ∧ m.idx = hist.length % N
  ∧ (∃ A B : List Flt, m.buf = B ++ A ∧ B.length = m.idx
      ∧ A ++ B = (List.replicate N (val 0) ++ hist).drop hist.length)
  ∧ m.buf.drop m.cnt = List.replicate (N - m.cnt) (val 0)

/-- Well-formed BPM window: five slots, cursor and count in range, the cursor
equal to the count while the window is filling, and every counted slot holding
`60000/dt` for some `dt` with `300 < dt < 2000`. -/
structure HRWin (m : MovAvg) : Prop where
  len : m.buf.length = 5
  cnt_le : m.cnt ≤ 5
  idx_lt : m.idx < 5
  filling : m.cnt < 5 → m.idx = m.cnt
  slots : ∀ i, i < m.cnt →
    ∃ dt : Nat, 300 < dt ∧ dt < 2000 ∧ m.buf[i]? = some (val (60000 / (dt : ℚ)))

/-- Well-formed R window: eight slots, none of them NaN. -/
structure RWin (m : MovAvg) : Prop where
  len : m.buf.length = 8
  cnt_le : m.cnt ≤ 8
  slots : ∀ i, i < 8 → ∃ q : ℚ, m.buf[i]? = some (val q)

/-- Invariant of the states `processSample` reaches from `PPG.init`. -/
structure PPG.WF (s : PPG) : Prop where
  dcRED_a : s.dcRED.a = emaAlphaDC
  acRED_a : s.acRED.a = emaAlphaAC
  hr : HRWin s.hrAvg
  bpm : s.bpmInstant = nan
    ∨ ∃ q : ℚ, s.bpmInstant = val q ∧ 60000 / 1999 ≤ q ∧ q ≤ 60000 / 301
  latestBPM_eq : s.latestBPM = bpmToInt s.bpmInstant
  r : RWin s.rAvg
  latestSpO2_eq : s.latestSpO2 = spo2ToInt (spo2Clamped s.R_smooth)

/-- The modulation ratios held by the R window and the smoothed ratio are not
negative. -/
structure RNonneg (s : PPG) : Prop where
  slots : ∀ i, i < 8 → ∃ q : ℚ, s.rAvg.buf[i]? = some (val q) ∧ 0 ≤ q
  smooth : ∀ r : ℚ, s.R_smooth = val r → 0 ≤ r

/-! ## Arithmetic of `Flt` -/

@[simp] theorem Flt.val_add (a b : ℚ) : val a + val b = val (a + b) := rfl
@[simp] theorem Flt.val_sub (a b : ℚ) : val a - val b = val (a - b) := rfl
@[simp] theorem Flt.val_mul (a b : ℚ) : val a * val b = val (a * b) := rfl
@[simp] theorem Flt.val_div (a b : ℚ) :
    val a / val b = if b = 0 then nan else val (a / b) := rfl
@[simp] theorem Flt.nan_add (x : Flt) : nan + x = nan := rfl
@[simp] theorem Flt.add_nan (x : Flt) : x + nan = nan := by cases x <;> rfl
@[simp] theorem Flt.nan_sub (x : Flt) : nan - x = nan := rfl
@[simp] theorem Flt.sub_nan (x : Flt) : x - nan = nan := by cases x <;> rfl
@[simp] theorem Flt.nan_mul (x : Flt) : nan * x = nan := rfl
@[simp] theorem Flt.mul_nan (x : Flt) : x * nan = nan := by cases x <;> rfl
@[simp] theorem Flt.nan_div (x : Flt) : nan / x = nan := rfl
@[simp] theorem Flt.div_nan (x : Flt) : x / nan = nan := by cases x <;> rfl
@[simp] theorem Flt.zero_def : (0 : Flt) = val 0 := rfl
@[simp] theorem Flt.add_val_zero (x : Flt) : x + val 0 = x := add_zero x
@[simp] theorem Flt.val_zero_add (x : Flt) : val 0 + x = x := zero_add x
@[simp] theorem Flt.isnan_val (a : ℚ) : (val a).isnan = false := rfl
@[simp] theorem Flt.isnan_nan : nan.isnan = true := rfl
@[simp] theorem Flt.fabsf_val (a : ℚ) : (val a).fabsf = val |a| := rfl
@[simp] theorem Flt.fabsf_nan : nan.fabsf = nan := rfl
@[simp] theorem Flt.gt_val (a b : ℚ) : Flt.gt (val a) (val b) = decide (b < a) := rfl
@[simp] theorem Flt.gt_nan_left (x : Flt) : Flt.gt nan x = false := rfl
@[simp] theorem Flt.gt_nan_right (x : Flt) : Flt.gt x nan = false := by cases x <;> rfl
@[simp] theorem Flt.lt_val (a b : ℚ) : Flt.lt (val a) (val b) = decide (a < b) := rfl
@[simp] theorem Flt.lt_nan_left (x : Flt) : Flt.lt nan x = false := rfl
@[simp] theorem Flt.lt_nan_right (x : Flt) : Flt.lt x nan = false := by cases x <;> rfl
@[simp] theorem Flt.ofNat_eq (n : Nat) : Flt.ofNat n = val (n : ℚ) := rfl
@[simp] theorem Flt.toInt_val (a : ℚ) :
    (val a).toInt = if 0 ≤ a then ⌊a⌋ else ⌈a⌉ := rfl
@[simp] theorem Flt.toInt_nan : nan.toInt = 0 := rfl

/-! ## `EMA::step` -/

theorem EMA_step_unset (al x : ℚ) :
    EMA.step ⟨nan, val al⟩ (val x) = (⟨val x, val al⟩, val x) := by
  have h : al * x + (1 - al) * x = x := by ring
  simp [EMA.step, h]

theorem EMA_step_set (al p x : ℚ) :
    EMA.step ⟨val p, val al⟩ (val x)
      = (⟨val (al * p + (1 - al) * x), val al⟩, val (al * p + (1 - al) * x)) := by
  simp [EMA.step]

theorem EMA_stepAll_snoc (e : EMA) (xs : List Flt) (x : Flt) :
    EMA.stepAll e (xs ++ [x]) = (EMA.stepAll e xs).1.step x := by
  simp [EMA.stepAll, List.foldl_append]

theorem EMA_stepAll_seeded (al : ℚ) (xs : List ℚ) (x : ℚ) :
    ∃ p : ℚ, EMA.stepAll (EMA.new (val al)) ((xs ++ [x]).map val)
      = (⟨val p, val al⟩, val p) := by
  induction xs using List.reverseRecOn generalizing x with
  | nil => exact ⟨x, by simp [EMA.stepAll, EMA.new, EMA_step_unset]⟩
  | append_singleton xs y ih =>
    obtain ⟨p, hp⟩ := ih y
    refine ⟨al * p + (1 - al) * x, ?_⟩
    rw [List.map_append, show List.map val [x] = [val x] from rfl, EMA_stepAll_snoc, hp]
    exact EMA_step_set al p x

/-- C2. For every coefficient `alpha` and non-NaN inputs fed to a fresh
`EMA(alpha)`: the first call `step(x)` returns `x`; after any non-empty sequence
of calls, whose last call returned `prev`, the next call `step(x)` returns
`alpha*prev + (1-alpha)*x` (exact arithmetic). -/
theorem EMA_step_spec (alpha : ℚ) :
    (∀ x : ℚ, ((EMA.new (val alpha)).step (val x)).2 = val x)
    ∧ (∀ (xs : List ℚ) (x0 x : ℚ), ∃ prev : ℚ,
        (EMA.stepAll (EMA.new (val alpha)) ((xs ++ [x0]).map val)).2 = val prev
        ∧ ((EMA.stepAll (EMA.new (val alpha)) ((xs ++ [x0]).map val)).1.step (val x)).2
            = val (alpha * prev + (1 - alpha) * x)) := by
  constructor
  · intro x
    simp [EMA.new, EMA_step_unset]
  · intro xs x0 x
    obtain ⟨p, hp⟩ := EMA_stepAll_seeded alpha xs x0
    exact ⟨p, by rw [hp], by rw [hp]; simp [EMA_step_set]⟩

/-! ## `MovAvg::push` -/

theorem Flt_sum_map_val (l : List ℚ) : (l.map val).sum = val l.sum := by
  induction l with
  | nil => rfl
  | cons a l ih => simp [ih]

theorem Flt_sum_replicate_zero (n : Nat) : (List.replicate n (val 0)).sum = val 0 := by
  induction n with
  | zero => rfl
  | succ n ih => simp [List.replicate_succ, ih]

theorem foldl_range_getD (buf : List Flt) (c : Nat) (h : c ≤ buf.length) :
    (List.range c).foldl (fun s i => s + buf.getD i (val 0)) (val 0) = (buf.take c).sum := by
  induction c with
  | zero => rfl
  | succ c ih =>
    have hc : c < buf.length := h
    rw [List.range_succ, List.foldl_append, ih (Nat.le_of_lt hc), List.take_succ,
      List.getElem?_eq_getElem hc, List.sum_append]
    simp [List.getD, List.getElem?_eq_getElem hc]

theorem Holds_new (N : Nat) : MovAvg.Holds N (MovAvg.new N) [] := by
  refine ⟨by simp [MovAvg.new], by simp [MovAvg.new], ⟨List.replicate N (val 0), [], ?_⟩, ?_⟩
  · simp [MovAvg.new]
  · simp [MovAvg.new]

theorem Holds_length (N : Nat) (m : MovAvg) (hist : List Flt) (h : MovAvg.Holds N m hist) :
    m.buf.length = N := by
  obtain ⟨-, -, ⟨A, B, hbuf, -, hAB⟩, -⟩ := h
  have h1 := congrArg List.length hAB
  simp at h1
  rw [hbuf, List.length_append]
  omega

theorem Holds_push (N : Nat) (hN : 1 ≤ N) (m : MovAvg) (hist : List Flt) (v : Flt)
    (h : MovAvg.Holds N m hist) : MovAvg.Holds N (MovAvg.push N m v).1 (hist ++ [v]) := by
  have hbl := Holds_length N m hist h
  obtain ⟨hcnt, hidx, ⟨A, B, hbuf, hB, hAB⟩, hz⟩ := h
  have hlen : A.length + B.length = N := by
    rw [hbuf, List.length_append] at hbl
    omega
  have hidxlt : m.idx < N := by rw [hidx]; exact Nat.mod_lt _ hN
  cases A with
  | nil => simp at hlen; omega
  | cons a A1 =>
    have hset : m.buf.set m.idx v = B ++ v :: A1 := by
      rw [hbuf, ← hB]; simp
    have hW : (List.replicate N (val 0) ++ (hist ++ [v])).drop (hist ++ [v]).length
        = A1 ++ B ++ [v] := by
      rw [← List.append_assoc, List.length_append, List.length_singleton,
        List.drop_append_of_le_length (by simp; omega), ← List.tail_drop, ← hAB]
      simp
    refine ⟨?_, ?_, ?_, ?_⟩
    · simp only [MovAvg.push, List.length_append, List.length_singleton]
      split_ifs <;> omega
    · simp only [MovAvg.push, List.length_append, List.length_singleton, hidx]
      exact Nat.mod_add_mod _ _ _
    · by_cases hA1 : A1 = []
      · subst hA1
        refine ⟨B ++ [v], [], ?_, ?_, ?_⟩
        · simp [MovAvg.push, hset]
        · simp only [MovAvg.push, List.length_nil]
          simp at hlen
          have h1 : m.idx + 1 = N := by omega
          rw [h1, Nat.mod_self]
        · rw [hW]; simp
      · have hA1len : 1 ≤ A1.length := by
          cases A1 with
          | nil => exact absurd rfl hA1
          | cons _ _ => simp
        refine ⟨A1, B ++ [v], ?_, ?_, ?_⟩
        · simp [MovAvg.push, hset]
        · simp only [MovAvg.push, List.length_append, List.length_singleton, hB]
          simp at hlen
          rw [Nat.mod_eq_of_lt (by omega)]
        · rw [hW]; simp
    · have hk : m.cnt < N → m.idx = m.cnt := by
        intro hlt
        have : hist.length < N := by omega
        rw [hidx, hcnt, Nat.mod_eq_of_lt this]
        omega
      simp only [MovAvg.push]
      split_ifs with hlt
      · rw [← hk hlt, List.drop_set_of_lt _ _ (by omega), hk hlt, ← List.tail_drop, hz]
        cases hd : N - m.cnt with
        | zero => omega
        | succ d =>
          have : N - (m.cnt + 1) = d := by omega
          rw [this]; simp [List.replicate_succ]
      · have : N - m.cnt = 0 := by omega
        rw [this, List.drop_eq_nil_of_le (by rw [List.length_set]; omega)]
        rfl

theorem Holds_sum (N : Nat) (m : MovAvg) (hist : List Flt) (h : MovAvg.Holds N m hist) :
    (m.buf.take m.cnt).sum = (hist.drop (hist.length - N)).sum := by
  obtain ⟨-, -, ⟨A, B, hbuf, -, hAB⟩, hz⟩ := h
  have h1 : (m.buf.take m.cnt).sum = m.buf.sum := by
    conv_rhs => rw [← List.take_append_drop m.cnt m.buf]
    rw [List.sum_append, hz, Flt_sum_replicate_zero]
    simp
  have h2 : m.buf.sum = (A ++ B).sum := by
    rw [hbuf, List.sum_append, List.sum_append, add_comm]
  rw [h1, h2, hAB, List.drop_append_eq_append_drop, List.sum_append, List.drop_replicate,
    Flt_sum_replicate_zero, List.length_replicate]
  simp

theorem Holds_pushAll (N : Nat) (hN : 1 ≤ N) (vs : List Flt) :
    MovAvg.Holds N (MovAvg.pushAll N (MovAvg.new N) vs).1 vs := by
  induction vs using List.reverseRecOn with
  | nil => exact Holds_new N
  | append_singleton vs v ih =>
    have : MovAvg.pushAll N (MovAvg.new N) (vs ++ [v])
        = MovAvg.push N (MovAvg.pushAll N (MovAvg.new N) vs).1 v := by
      simp [MovAvg.pushAll, List.foldl_append]
    rw [this]
    exact Holds_push N hN _ vs v ih

theorem push_snd_of_Holds (N : Nat) (hN : 1 ≤ N) (m : MovAvg) (hist : List Flt) (v : Flt)
    (h : MovAvg.Holds N m hist) :
    (MovAvg.push N m v).2
      = ((hist ++ [v]).drop ((hist ++ [v]).length - N)).sum
          / Flt.ofNat (min (hist ++ [v]).length N) := by
  have h1 := Holds_push N hN m hist v h
  have hl := Holds_length N _ _ h1
  have hs := Holds_sum N _ _ h1
  have hc : (MovAvg.push N m v).1.cnt ≤ (MovAvg.push N m v).1.buf.length := by
    rw [hl, h1.1]; exact Nat.min_le_right _ _
  have hf := foldl_range_getD _ _ hc
  have hdef : (MovAvg.push N m v).2
      = (List.range (MovAvg.push N m v).1.cnt).foldl
          (fun s i => s + (MovAvg.push N m v).1.buf.getD i (val 0)) (val 0)
        / Flt.ofNat (MovAvg.push N m v).1.cnt := rfl
  rw [hdef, hf, hs, h1.1]

theorem pushAll_val_mean (N : Nat) (vs : List ℚ) (hN : 1 ≤ N) (hvs : vs ≠ []) :
    (MovAvg.pushAll N (MovAvg.new N) (vs.map val)).2
      = val (mean (lastN (min vs.length N) vs)) := by
  obtain ⟨ws, w, rfl⟩ : ∃ ws w, vs = ws ++ [w] := by
    rcases List.eq_nil_or_concat vs with h | ⟨ws, w, h⟩
    · exact absurd h hvs
    · exact ⟨ws, w, by simpa using h⟩
  have hstep : MovAvg.pushAll N (MovAvg.new N) ((ws ++ [w]).map val)
      = MovAvg.push N (MovAvg.pushAll N (MovAvg.new N) (ws.map val)).1 (val w) := by
    simp [MovAvg.pushAll, List.foldl_append]
  have hk : ((min (ws ++ [w]).length N : ℕ) : ℚ) ≠ 0 := by
    have : 1 ≤ min (ws ++ [w]).length N := by
      simp only [List.length_append, List.length_singleton]
      omega
    exact Nat.cast_ne_zero.mpr (by omega)
  have hlen : (lastN (min (ws ++ [w]).length N) (ws ++ [w])).length
      = min (ws ++ [w]).length N := by
    simp only [lastN, List.length_drop]
    omega
  have hidx : (ws ++ [w]).length - min (ws ++ [w]).length N = (ws ++ [w]).length - N := by
    omega
  rw [hstep, push_snd_of_Holds N hN _ (ws.map val) (val w) (Holds_pushAll N hN _)]
  have hm : List.map val ws ++ [val w] = (ws ++ [w]).map val := by simp
  rw [hm, List.length_map, ← List.map_drop, Flt_sum_map_val, Flt.ofNat_eq, Flt.val_div,
    if_neg hk, mean, hlen, lastN, hidx]

/-- C1. For every window size `N ≥ 1` and every non-empty sequence `vs` of `k`
values pushed into a fresh `MovAvg<N>`, the value returned by the last (`k`-th)
push is the arithmetic mean of the last `min(k, N)` pushed values, in exact
arithmetic. -/
theorem MovAvg_push_mean (N : Nat) (vs : List ℚ) (hN : 1 ≤ N) (hvs : vs ≠ []) :
    (MovAvg.pushAll N (MovAvg.new N) (vs.map val)).2
      = val (mean (lastN (min vs.length N) vs)) :=
  pushAll_val_mean N vs hN hvs

/-- Witness of C1: window 2, pushes 1, 2, 4; the third push returns (2+4)/2. -/
theorem MovAvg_push_mean_witness :
    (MovAvg.pushAll 2 (MovAvg.new 2) ([1, 2, 4].map val)).2
      = val (mean (lastN (min [1, 2, 4].length 2) [1, 2, 4])) :=
  MovAvg_push_mean 2 [1, 2, 4] (by decide) (by simp)

/-! ## `bpmToInt` -/

theorem floor_add_half_le (q : ℚ) : ((⌊q + 1 / 2⌋ : ℤ) : ℚ) ≤ q + 1 / 2 := Int.floor_le _

theorem lt_floor_add_half (q : ℚ) : q - 1 / 2 < ((⌊q + 1 / 2⌋ : ℤ) : ℚ) := by
  have := Int.lt_floor_add_one (q + 1 / 2)
  linarith

theorem bpmToInt_val_in (q : ℚ) (h1 : 20 ≤ q) (h2 : q ≤ 220) :
    bpmToInt (val q) = ⌊q + 1 / 2⌋ := by
  have h3 : (0 : ℚ) ≤ q + 5 / 10 := by linarith
  have h4 : ¬ q < 20 := not_lt.mpr h1
  have h5 : ¬ 220 < q := not_lt.mpr h2
  simp [bpmToInt, h3, h4, h5]
  norm_num

theorem bpmToInt_val_out (q : ℚ) (h : q < 20 ∨ 220 < q) : bpmToInt (val q) = 0 := by
  rcases h with h | h <;> simp [bpmToInt, h]

theorem floor_half_bounds (q : ℚ) (lo hi : ℤ) (h1 : (lo : ℚ) ≤ q) (h2 : q ≤ (hi : ℚ)) :
    lo ≤ ⌊q + 1 / 2⌋ ∧ ⌊q + 1 / 2⌋ ≤ hi := by
  constructor
  · apply Int.le_floor.mpr
    linarith
  · have h3 : ⌊q + 1 / 2⌋ < hi + 1 := by
      apply Int.floor_lt.mpr
      push_cast
      linarith
    omega

/-- C5. `bpmToInt` returns 0 on NaN and on every value below 20 or above 220
(so on NaN, 10 and 300); on every `x` with `20 ≤ x ≤ 220` it returns
`floor (x + 0.5)`, which is within one half of `x` (75.4 gives 75, 75.6 gives 76);
its result is always 0 or an integer in `[20, 220]`. -/
theorem bpmToInt_spec :
    bpmToInt nan = 0
    ∧ (∀ q : ℚ, q < 20 ∨ 220 < q → bpmToInt (val q) = 0)
    ∧ bpmToInt (val 10) = 0 ∧ bpmToInt (val 300) = 0
    ∧ (∀ q : ℚ, 20 ≤ q → q ≤ 220 →
        bpmToInt (val q) = ⌊q + 1 / 2⌋
        ∧ |((bpmToInt (val q) : ℤ) : ℚ) - q| ≤ 1 / 2)
    ∧ bpmToInt (val (754 / 10)) = 75 ∧ bpmToInt (val (756 / 10)) = 76
    ∧ (∀ x : Flt, bpmToInt x = 0 ∨ (20 ≤ bpmToInt x ∧ bpmToInt x ≤ 220)) := by
  refine ⟨by simp [bpmToInt], bpmToInt_val_out, bpmToInt_val_out 10 (by norm_num),
    bpmToInt_val_out 300 (by norm_num), ?_, ?_, ?_, ?_⟩
  · intro q h1 h2
    refine ⟨bpmToInt_val_in q h1 h2, ?_⟩
    rw [bpmToInt_val_in q h1 h2, abs_le]
    have a := floor_add_half_le q
    have b := lt_floor_add_half q
    constructor <;> linarith
  · rw [bpmToInt_val_in _ (by norm_num) (by norm_num), Int.floor_eq_iff]
    norm_num
  · rw [bpmToInt_val_in _ (by norm_num) (by norm_num), Int.floor_eq_iff]
    norm_num
  · intro x
    cases x with
    | nan => left; simp [bpmToInt]
    | val q =>
      by_cases h1 : q < 20
      · left; exact bpmToInt_val_out q (Or.inl h1)
      · by_cases h2 : 220 < q
        · left; exact bpmToInt_val_out q (Or.inr h2)
        · right
          rw [bpmToInt_val_in q (not_lt.mp h1) (not_lt.mp h2)]
          exact floor_half_bounds q 20 220 (by exact_mod_cast not_lt.mp h1)
            (by exact_mod_cast not_lt.mp h2)

/-- Witness of C5 at the inputs 10 and 100. -/
theorem bpmToInt_spec_witness :
    bpmToInt (val 10) = 0 ∧ bpmToInt (val 100) = ⌊(100 : ℚ) + 1 / 2⌋ :=
  ⟨bpmToInt_spec.2.1 10 (Or.inl (by norm_num)),
   (bpmToInt_spec.2.2.2.2.1 100 (by norm_num) (by norm_num)).1⟩

/-! ## `processSample`: concrete run used by the examples -/

theorem afterFirstSample_eq : afterFirstSample =
  { PPG.init with
    dcIR := ⟨val 1000, emaAlphaDC⟩, dcRED := ⟨val 1000, emaAlphaDC⟩,
    acIR := ⟨val 0, emaAlphaAC⟩, acRED := ⟨val 0, emaAlphaAC⟩,
    acRmsIR := ⟨val 0, emaAlphaRms⟩, acRmsRED := ⟨val 0, emaAlphaRms⟩,
    latestIR := 1000, latestRED := 1000 } := by
  simp [afterFirstSample, processSample, processSampleAux, PPG.init, EMA.step, EMA.new,
    emaAlphaDC, emaAlphaAC, emaAlphaRms, thrFactor, spo2Clamped, spo2ToInt, bpmToInt, u32sub,
    minBeatMs, maxBeatMs]
  norm_num

theorem second_sample_rising (t : Nat) :
    (processSampleAux afterFirstSample ⟨2000, 1000, t⟩).2.risingEdge = true := by
  rw [afterFirstSample_eq]
  simp only [processSampleAux, PPG.init, emaAlphaDC, emaAlphaAC, emaAlphaRms, thrFactor,
    EMA_step_set, Flt.ofNat_eq, Flt.val_sub, Flt.fabsf_val, Flt.val_mul, Flt.gt_val]
  norm_num

theorem second_sample_dt (t : Nat) (ht : t < 4294967296) :
    (processSampleAux afterFirstSample ⟨2000, 1000, t⟩).2.dt = t := by
  rw [afterFirstSample_eq]
  simp only [processSampleAux, PPG.init, u32sub]
  omega

/-! ## `processSample`: beat acceptance -/

theorem aux_dt (s : PPG) (x : Sample) :
    (processSampleAux s x).2.dt = u32sub x.now s.lastBeatMs := rfl

theorem aux_accepted (s : PPG) (x : Sample) :
    (processSampleAux s x).2.accepted
      = ((processSampleAux s x).2.risingEdge
          && decide (minBeatMs < u32sub x.now s.lastBeatMs)
          && decide (u32sub x.now s.lastBeatMs < maxBeatMs)) := rfl

theorem aux_hr (s : PPG) (x : Sample) :
    ((processSample s x).hrAvg, (processSample s x).bpmInstant)
      = if (processSampleAux s x).2.accepted
        then s.hrAvg.push avgWinHR (val 60000 / Flt.ofNat (u32sub x.now s.lastBeatMs))
        else (s.hrAvg, s.bpmInstant) := rfl

theorem aux_hr_accepted (s : PPG) (x : Sample) (h : (processSampleAux s x).2.accepted = true) :
    (processSample s x).hrAvg
        = (s.hrAvg.push avgWinHR (val 60000 / Flt.ofNat (u32sub x.now s.lastBeatMs))).1
    ∧ (processSample s x).bpmInstant
        = (s.hrAvg.push avgWinHR (val 60000 / Flt.ofNat (u32sub x.now s.lastBeatMs))).2 := by
  have h1 := aux_hr s x
  rw [h, if_pos rfl] at h1
  exact ⟨congrArg Prod.fst h1, congrArg Prod.snd h1⟩

theorem aux_hr_rejected (s : PPG) (x : Sample) (h : (processSampleAux s x).2.accepted = false) :
    (processSample s x).hrAvg = s.hrAvg ∧ (processSample s x).bpmInstant = s.bpmInstant := by
  have h1 := aux_hr s x
  rw [h] at h1
  exact ⟨congrArg Prod.fst h1, congrArg Prod.snd h1⟩

theorem aux_latestBPM (s : PPG) (x : Sample) :
    (processSample s x).latestBPM = bpmToInt (processSample s x).bpmInstant := rfl

theorem aux_lastBeatMs (s : PPG) (x : Sample) :
    (processSample s x).lastBeatMs
      = if (processSampleAux s x).2.risingEdge then x.now else s.lastBeatMs := rfl

theorem second_sample_accepted (t : Nat) (ht : t < 4294967296) :
    (processSampleAux afterFirstSample ⟨2000, 1000, t⟩).2.accepted
      = (decide (300 < t) && decide (t < 2000)) := by
  have h1 := second_sample_dt t ht
  rw [aux_dt] at h1
  rw [aux_accepted, second_sample_rising, h1]
  simp [minBeatMs, maxBeatMs]

theorem afterFirstSample_lastBeatMs : afterFirstSample.lastBeatMs = 0 := by
  rw [afterFirstSample_eq]; rfl

theorem sum_take_const (buf : List Flt) (c : Nat) (q : ℚ)
    (h : ∀ i, i < c → buf[i]? = some (val q)) :
    (buf.take c).sum = val ((c : ℚ) * q) := by
  induction c with
  | zero => simp
  | succ c ih =>
    have hc := h c (Nat.lt_succ_self c)
    rw [List.take_succ, hc, List.sum_append, ih (fun i hi => h i (Nat.lt_succ_of_lt hi))]
    simp
    ring

theorem push_snd_const (N : Nat) (m : MovAvg) (v : Flt) (q : ℚ)
    (hc : 1 ≤ (MovAvg.push N m v).1.cnt)
    (h : ∀ i, i < (MovAvg.push N m v).1.cnt → (MovAvg.push N m v).1.buf[i]? = some (val q)) :
    (MovAvg.push N m v).2 = val q := by
  have hlen : (MovAvg.push N m v).1.cnt ≤ (MovAvg.push N m v).1.buf.length := by
    by_contra hlt
    have h1 := h ((MovAvg.push N m v).1.buf.length) (by omega)
    simp at h1
  have hdef : (MovAvg.push N m v).2
      = (List.range (MovAvg.push N m v).1.cnt).foldl
          (fun s i => s + (MovAvg.push N m v).1.buf.getD i (val 0)) (val 0)
        / Flt.ofNat (MovAvg.push N m v).1.cnt := rfl
  have hne : (((MovAvg.push N m v).1.cnt : ℕ) : ℚ) ≠ 0 := Nat.cast_ne_zero.mpr (by omega)
  rw [hdef, foldl_range_getD _ _ hlen, sum_take_const _ _ q h, Flt.ofNat_eq, Flt.val_div,
    if_neg hne]
  congr 1
  field_simp

/-- C3. On every signalled beat (rising edge) at clock `now`, with
`dt = (now - lastBeatMs) mod 2^32`: the beat is accepted iff `300 < dt < 2000`;
when accepted, `60000/dt` is pushed into the BPM window and the mean returned by
that push becomes `bpmInstant`; when rejected, the BPM window and `bpmInstant` are
unchanged.  A beat at `dt = 400` whose push leaves only the value 150 in the
counted slots of the window gives the estimate 150 and the reported BPM 150. -/
theorem processSample_beat (s : PPG) (x : Sample)
    (hre : (processSampleAux s x).2.risingEdge = true) :
    (processSampleAux s x).2.dt = (x.now + 4294967296 - s.lastBeatMs) % 4294967296
    ∧ ((processSampleAux s x).2.accepted = true
        ↔ 300 < (processSampleAux s x).2.dt ∧ (processSampleAux s x).2.dt < 2000)
    ∧ ((processSampleAux s x).2.accepted = true →
        (processSample s x).hrAvg
          = (s.hrAvg.push 5 (val (60000 / ((processSampleAux s x).2.dt : ℚ)))).1
        ∧ (processSample s x).bpmInstant
          = (s.hrAvg.push 5 (val (60000 / ((processSampleAux s x).2.dt : ℚ)))).2)
    ∧ ((processSampleAux s x).2.accepted = false →
        (processSample s x).hrAvg = s.hrAvg
        ∧ (processSample s x).bpmInstant = s.bpmInstant)
    ∧ ((processSampleAux s x).2.dt = 400 →
        1 ≤ (processSample s x).hrAvg.cnt →
        (∀ i, i < (processSample s x).hrAvg.cnt →
          (processSample s x).hrAvg.buf[i]? = some (val 150)) →
        (processSample s x).bpmInstant = val 150 ∧ (processSample s x).latestBPM = 150) := by
  have hacc : (processSampleAux s x).2.accepted = true
      ↔ 300 < (processSampleAux s x).2.dt ∧ (processSampleAux s x).2.dt < 2000 := by
    rw [aux_accepted, hre, aux_dt]
    simp [minBeatMs, maxBeatMs]
  have hpush : (processSampleAux s x).2.accepted = true →
      (processSample s x).hrAvg
          = (s.hrAvg.push 5 (val (60000 / ((processSampleAux s x).2.dt : ℚ)))).1
        ∧ (processSample s x).bpmInstant
          = (s.hrAvg.push 5 (val (60000 / ((processSampleAux s x).2.dt : ℚ)))).2 := by
    intro h
    have hd := (hacc.mp h).1
    have hne : (((processSampleAux s x).2.dt : ℕ) : ℚ) ≠ 0 := Nat.cast_ne_zero.mpr (by omega)
    have hv : val 60000 / Flt.ofNat (u32sub x.now s.lastBeatMs)
        = val (60000 / ((processSampleAux s x).2.dt : ℚ)) := by
      rw [aux_dt] at hne ⊢
      rw [Flt.ofNat_eq, Flt.val_div, if_neg hne]
    have := aux_hr_accepted s x h
    rw [hv] at this
    exact this
  refine ⟨rfl, hacc, hpush, aux_hr_rejected s x, ?_⟩
  intro hdt hcnt hall
  have h : (processSampleAux s x).2.accepted = true := hacc.mpr (by omega)
  obtain ⟨h1, h2⟩ := hpush h
  rw [h1] at hcnt hall
  have h3 := push_snd_const 5 s.hrAvg _ 150 hcnt hall
  have h4 : (processSample s x).bpmInstant = val 150 := by rw [h2, h3]
  refine ⟨h4, ?_⟩
  rw [aux_latestBPM, h4, bpmToInt_val_in 150 (by norm_num) (by norm_num), Int.floor_eq_iff]
  norm_num

/-- Witness of C3: after a first sample (1000, 1000) at clock 0, the sample
(2000, 1000) at clock 400 is a rising edge with `dt = 400`; it is accepted. -/
theorem processSample_beat_witness :
    (processSampleAux afterFirstSample ⟨2000, 1000, 400⟩).2.risingEdge = true
    ∧ (processSampleAux afterFirstSample ⟨2000, 1000, 400⟩).2.accepted = true :=
  ⟨second_sample_rising 400,
   (processSample_beat afterFirstSample ⟨2000, 1000, 400⟩ (second_sample_rising 400)).2.1.mpr
     (by rw [second_sample_dt 400 (by norm_num)]; norm_num)⟩

/-! ## `processSample`: the reference time of the beat detector -/

/-- C9, counterexample. After a first sample (1000, 1000) at clock 0, the sample
(2000, 1000) at clock 100 is a rising edge with `dt = 100`, which is rejected, and
`lastBeatMs` moves from 0 to 100. -/
theorem rejected_beat_moves_lastBeatMs :
    (processSampleAux afterFirstSample ⟨2000, 1000, 100⟩).2.risingEdge = true
    ∧ (processSampleAux afterFirstSample ⟨2000, 1000, 100⟩).2.dt = 100
    ∧ (processSampleAux afterFirstSample ⟨2000, 1000, 100⟩).2.accepted = false
    ∧ afterFirstSample.lastBeatMs = 0
    ∧ (processSample afterFirstSample ⟨2000, 1000, 100⟩).lastBeatMs = 100 := by
  refine ⟨second_sample_rising 100, second_sample_dt 100 (by norm_num), ?_,
    afterFirstSample_lastBeatMs, ?_⟩
  · rw [second_sample_accepted 100 (by norm_num)]; decide
  · rw [aux_lastBeatMs, second_sample_rising]; rfl

/-- C9, amended. Every signalled beat, accepted or rejected, sets `lastBeatMs` to
the current clock value; a call without a signalled beat leaves it unchanged. -/
theorem processSample_lastBeatMs (s : PPG) (x : Sample) :
    ((processSampleAux s x).2.risingEdge = true → (processSample s x).lastBeatMs = x.now)
    ∧ ((processSampleAux s x).2.risingEdge = false →
        (processSample s x).lastBeatMs = s.lastBeatMs) := by
  constructor <;> intro h <;> rw [aux_lastBeatMs, h] <;> rfl

/-- Witness of the amended C9 on an accepted beat at clock 400. -/
theorem processSample_lastBeatMs_witness :
    (processSampleAux afterFirstSample ⟨2000, 1000, 400⟩).2.risingEdge = true
    ∧ (processSample afterFirstSample ⟨2000, 1000, 400⟩).lastBeatMs = 400 :=
  ⟨second_sample_rising 400,
   (processSample_lastBeatMs afterFirstSample ⟨2000, 1000, 400⟩).1 (second_sample_rising 400)⟩

/-! ## Windows reached by `processSample` -/

theorem sum_take_bounds (buf : List Flt) (c : Nat) (lo hi : ℚ)
    (h : ∀ i, i < c → ∃ q : ℚ, buf[i]? = some (val q) ∧ lo ≤ q ∧ q ≤ hi) :
    ∃ t : ℚ, (buf.take c).sum = val t ∧ (c : ℚ) * lo ≤ t ∧ t ≤ (c : ℚ) * hi := by
  induction c with
  | zero => exact ⟨0, by simp, by simp, by simp⟩
  | succ c ih =>
    obtain ⟨t, ht, h1, h2⟩ := ih (fun i hi => h i (Nat.lt_succ_of_lt hi))
    obtain ⟨q, hq, h3, h4⟩ := h c (Nat.lt_succ_self c)
    refine ⟨t + q, ?_, ?_, ?_⟩
    · rw [List.take_succ, hq, List.sum_append, ht]; simp
    · push_cast; linarith
    · push_cast; linarith

theorem beat_value_bounds (dt : Nat) (h1 : 300 < dt) (h2 : dt < 2000) :
    (60000 : ℚ) / 1999 ≤ 60000 / (dt : ℚ) ∧ (60000 : ℚ) / (dt : ℚ) ≤ 60000 / 301 := by
  have h3 : (301 : ℚ) ≤ (dt : ℚ) := by exact_mod_cast h1
  have h4 : (dt : ℚ) ≤ 1999 := by exact_mod_cast Nat.le_of_lt_succ h2
  have h5 : (0 : ℚ) < (dt : ℚ) := by linarith
  constructor
  · exact div_le_div_of_nonneg_left (by norm_num) h5 h4
  · exact div_le_div_of_nonneg_left (by norm_num) (by norm_num) h3

theorem push_cnt (N : Nat) (m : MovAvg) (v : Flt) :
    (MovAvg.push N m v).1.cnt = if m.cnt < N then m.cnt + 1 else m.cnt := rfl

theorem push_idx (N : Nat) (m : MovAvg) (v : Flt) :
    (MovAvg.push N m v).1.idx = (m.idx + 1) % N := rfl

theorem push_buf (N : Nat) (m : MovAvg) (v : Flt) :
    (MovAvg.push N m v).1.buf = m.buf.set m.idx v := rfl

theorem push_snd (N : Nat) (m : MovAvg) (v : Flt)
    (h : (MovAvg.push N m v).1.cnt ≤ (MovAvg.push N m v).1.buf.length) :
    (MovAvg.push N m v).2
      = ((MovAvg.push N m v).1.buf.take (MovAvg.push N m v).1.cnt).sum
          / Flt.ofNat (MovAvg.push N m v).1.cnt := by
  rw [← foldl_range_getD _ _ h]
  rfl

theorem HRWin_new : HRWin (MovAvg.new 5) where
  len := by simp [MovAvg.new]
  cnt_le := by simp [MovAvg.new]
  idx_lt := by simp [MovAvg.new]
  filling := fun _ => rfl
  slots := by
    intro i hi
    simp [MovAvg.new] at hi

theorem HRWin_push (m : MovAvg) (dt : Nat) (h1 : 300 < dt) (h2 : dt < 2000) (hm : HRWin m) :
    HRWin (MovAvg.push 5 m (val (60000 / (dt : ℚ)))).1 where
  len := by rw [push_buf, List.length_set]; exact hm.len
  cnt_le := by
    have := hm.cnt_le
    rw [push_cnt]; split_ifs <;> omega
  idx_lt := by rw [push_idx]; exact Nat.mod_lt _ (by norm_num)
  filling := by
    have := hm.cnt_le
    have := hm.filling
    rw [push_cnt, push_idx]
    split_ifs <;> omega
  slots := by
    intro i hi
    have hc := hm.cnt_le
    have hf := hm.filling
    have hx := hm.idx_lt
    rw [push_cnt] at hi
    rw [push_buf, List.getElem?_set]
    by_cases hii : m.idx = i
    · rw [if_pos hii, if_pos (by rw [hm.len]; exact hx)]
      exact ⟨dt, h1, h2, rfl⟩
    · rw [if_neg hii]
      apply hm.slots
      split_ifs at hi <;> omega

theorem HRWin_push_snd (m : MovAvg) (dt : Nat) (h1 : 300 < dt) (h2 : dt < 2000)
    (hm : HRWin m) :
    ∃ q : ℚ, (MovAvg.push 5 m (val (60000 / (dt : ℚ)))).2 = val q
      ∧ 60000 / 1999 ≤ q ∧ q ≤ 60000 / 301 := by
  have hw := HRWin_push m dt h1 h2 hm
  have hcnt : 1 ≤ (MovAvg.push 5 m (val (60000 / (dt : ℚ)))).1.cnt := by
    rw [push_cnt]; split_ifs <;> omega
  have hne : (((MovAvg.push 5 m (val (60000 / (dt : ℚ)))).1.cnt : ℕ) : ℚ) ≠ 0 :=
    Nat.cast_ne_zero.mpr (by omega)
  have hpos : (0 : ℚ) < (((MovAvg.push 5 m (val (60000 / (dt : ℚ)))).1.cnt : ℕ) : ℚ) :=
    Nat.cast_pos.mpr (by omega)
  obtain ⟨t, ht, h3, h4⟩ := sum_take_bounds (MovAvg.push 5 m (val (60000 / (dt : ℚ)))).1.buf
    (MovAvg.push 5 m (val (60000 / (dt : ℚ)))).1.cnt (60000 / 1999) (60000 / 301) (by
      intro i hi
      obtain ⟨d, hd1, hd2, hd⟩ := hw.slots i hi
      exact ⟨_, hd, beat_value_bounds d hd1 hd2⟩)
  refine ⟨t / (((MovAvg.push 5 m (val (60000 / (dt : ℚ)))).1.cnt : ℕ) : ℚ), ?_, ?_, ?_⟩
  · rw [push_snd _ _ _ (by rw [hw.len]; exact hw.cnt_le), ht, Flt.ofNat_eq, Flt.val_div,
      if_neg hne]
  · rw [le_div_iff₀ hpos]; linarith
  · rw [div_le_iff₀ hpos]; linarith

theorem sum_take_val (buf : List Flt) (c : Nat)
    (h : ∀ i, i < c → ∃ q : ℚ, buf[i]? = some (val q)) :
    ∃ t : ℚ, (buf.take c).sum = val t := by
  induction c with
  | zero => exact ⟨0, by simp⟩
  | succ c ih =>
    obtain ⟨t, ht⟩ := ih (fun i hi => h i (Nat.lt_succ_of_lt hi))
    obtain ⟨q, hq⟩ := h c (Nat.lt_succ_self c)
    exact ⟨t + q, by rw [List.take_succ, hq, List.sum_append, ht]; simp⟩

theorem RWin_new : RWin (MovAvg.new 8) where
  len := by simp [MovAvg.new]
  cnt_le := by simp [MovAvg.new]
  slots := by
    intro i hi
    refine ⟨0, ?_⟩
    show (List.replicate 8 (val 0))[i]? = some (val 0)
    rw [List.getElem?_replicate, if_pos hi]

theorem RWin_push (m : MovAvg) (r : ℚ) (hm : RWin m) : RWin (MovAvg.push 8 m (val r)).1 where
  len := by rw [push_buf, List.length_set]; exact hm.len
  cnt_le := by
    have := hm.cnt_le
    rw [push_cnt]; split_ifs <;> omega
  slots := by
    intro i hi
    rw [push_buf, List.getElem?_set]
    by_cases hii : m.idx = i
    · rw [if_pos hii, if_pos (by rw [hm.len, hii]; exact hi)]
      exact ⟨r, rfl⟩
    · rw [if_neg hii]
      exact hm.slots i hi

theorem RWin_push_snd (m : MovAvg) (r : ℚ) (hm : RWin m) :
    ∃ q : ℚ, (MovAvg.push 8 m (val r)).2 = val q := by
  have hw := RWin_push m r hm
  have hne : (((MovAvg.push 8 m (val r)).1.cnt : ℕ) : ℚ) ≠ 0 := by
    apply Nat.cast_ne_zero.mpr
    rw [push_cnt]; split_ifs <;> omega
  obtain ⟨t, ht⟩ := sum_take_val (MovAvg.push 8 m (val r)).1.buf (MovAvg.push 8 m (val r)).1.cnt
    (fun i hi => hw.slots i (Nat.lt_of_lt_of_le hi hw.cnt_le))
  exact ⟨_, by rw [push_snd _ _ _ (by rw [hw.len]; exact hw.cnt_le), ht, Flt.ofNat_eq,
    Flt.val_div, if_neg hne]⟩

/-! ## `processSample`: the modulation ratio and SpO2 -/

theorem EMA_step_val (e : EMA) (al x : ℚ) (h : e.a = val al) :
    ∃ y : ℚ, (e.step (val x)).2 = val y := by
  obtain ⟨y, a⟩ := e
  simp only at h
  subst h
  cases y with
  | nan => exact ⟨_, by rw [EMA_step_unset]⟩
  | val p => exact ⟨_, by rw [EMA_step_set]⟩

theorem aux_rr (s : PPG) (x : Sample) :
    ((processSample s x).rAvg, (processSample s x).R_smooth)
      = if !(processSampleAux s x).2.R.isnan
        then s.rAvg.push avgWinR (processSampleAux s x).2.R
        else (s.rAvg, s.R_smooth) := rfl

theorem aux_latestSpO2 (s : PPG) (x : Sample) :
    (processSample s x).latestSpO2 = spo2ToInt (spo2Clamped (processSample s x).R_smooth) := rfl

theorem aux_R (s : PPG) (x : Sample) :
    (processSampleAux s x).2.R
      = if (processSampleAux s x).2.ratio_ir.gt (val (1 / 1000000))
        then (processSampleAux s x).2.ratio_red / (processSampleAux s x).2.ratio_ir
        else nan := rfl

theorem aux_ratio_red (s : PPG) (x : Sample) :
    (processSampleAux s x).2.ratio_red
      = if (processSampleAux s x).2.dc_red.gt (val 1)
        then (processSampleAux s x).2.ac_red.fabsf / (processSampleAux s x).2.dc_red
        else val 0 := rfl

theorem aux_dc_red (s : PPG) (x : Sample) :
    (processSampleAux s x).2.dc_red = (s.dcRED.step (Flt.ofNat x.redRaw)).2 := rfl

theorem aux_ac_red (s : PPG) (x : Sample) :
    (processSampleAux s x).2.ac_red
      = (s.acRED.step (Flt.ofNat x.redRaw - (processSampleAux s x).2.dc_red)).2 := rfl

theorem aux_ratio_red_val (s : PPG) (x : Sample) (hs : s.WF) :
    ∃ q : ℚ, (processSampleAux s x).2.ratio_red = val q := by
  obtain ⟨d, hd⟩ := EMA_step_val s.dcRED (95 / 100) x.redRaw hs.dcRED_a
  have hdc : (processSampleAux s x).2.dc_red = val d := by rw [aux_dc_red]; exact hd
  obtain ⟨a, ha⟩ := EMA_step_val s.acRED (70 / 100) (x.redRaw - d) hs.acRED_a
  have hac : (processSampleAux s x).2.ac_red = val a := by
    rw [aux_ac_red, hdc]; exact ha
  rw [aux_ratio_red, hdc, hac]
  by_cases h : (1 : ℚ) < d
  · have hd0 : d ≠ 0 := by
      intro h0
      rw [h0] at h
      norm_num at h
    exact ⟨|a| / d, by simp [h, hd0]⟩
  · exact ⟨0, by simp [h]⟩

theorem aux_R_defined (s : PPG) (x : Sample) (hs : s.WF)
    (h : (processSampleAux s x).2.ratio_ir.gt (val (1 / 1000000)) = true) :
    ∃ r : ℚ, (processSampleAux s x).2.R = val r := by
  obtain ⟨qr, hqr⟩ := aux_ratio_red_val s x hs
  rw [aux_R, h, if_pos rfl, hqr]
  cases hqi : (processSampleAux s x).2.ratio_ir with
  | nan => rw [hqi] at h; simp at h
  | val qi =>
    rw [hqi] at h
    have hpos : (1 : ℚ) / 1000000 < qi := by simpa using h
    have hne : qi ≠ 0 := by
      intro h0
      rw [h0] at hpos
      norm_num at hpos
    exact ⟨qr / qi, by simp [hne]⟩

theorem aux_R_undefined (s : PPG) (x : Sample)
    (h : (processSampleAux s x).2.ratio_ir.gt (val (1 / 1000000)) = false) :
    (processSampleAux s x).2.R = nan := by
  rw [aux_R, h]; rfl

theorem aux_rr_defined (s : PPG) (x : Sample) (r : ℚ) (h : (processSampleAux s x).2.R = val r) :
    (processSample s x).rAvg = (s.rAvg.push 8 (val r)).1
    ∧ (processSample s x).R_smooth = (s.rAvg.push 8 (val r)).2 := by
  have h1 := aux_rr s x
  rw [h] at h1
  exact ⟨congrArg Prod.fst h1, congrArg Prod.snd h1⟩

theorem aux_rr_undefined (s : PPG) (x : Sample) (h : (processSampleAux s x).2.R = nan) :
    (processSample s x).rAvg = s.rAvg ∧ (processSample s x).R_smooth = s.R_smooth := by
  have h1 := aux_rr s x
  rw [h] at h1
  exact ⟨congrArg Prod.fst h1, congrArg Prod.snd h1⟩

/-! ## The invariant of `processSample` -/

theorem aux_accepted_bounds (s : PPG) (x : Sample)
    (h : (processSampleAux s x).2.accepted = true) :
    300 < u32sub x.now s.lastBeatMs ∧ u32sub x.now s.lastBeatMs < 2000 := by
  rw [aux_accepted] at h
  simp [minBeatMs, maxBeatMs] at h
  exact ⟨h.1.2, h.2⟩

theorem beat_value (dt : Nat) (h : 300 < dt) :
    val 60000 / Flt.ofNat dt = val (60000 / (dt : ℚ)) := by
  have hne : ((dt : ℕ) : ℚ) ≠ 0 := Nat.cast_ne_zero.mpr (by omega)
  rw [Flt.ofNat_eq, Flt.val_div, if_neg hne]

theorem WF_init : PPG.init.WF where
  dcRED_a := rfl
  acRED_a := rfl
  hr := HRWin_new
  bpm := Or.inl rfl
  latestBPM_eq := by simp [PPG.init, bpmToInt]
  r := RWin_new
  latestSpO2_eq := by simp [PPG.init, spo2ToInt, spo2Clamped]

theorem WF_step (s : PPG) (x : Sample) (hs : s.WF) : (processSample s x).WF where
  dcRED_a := hs.dcRED_a
  acRED_a := hs.acRED_a
  hr := by
    cases h : (processSampleAux s x).2.accepted with
    | false => rw [(aux_hr_rejected s x h).1]; exact hs.hr
    | true =>
      obtain ⟨h1, h2⟩ := aux_accepted_bounds s x h
      rw [(aux_hr_accepted s x h).1, beat_value _ h1]
      exact HRWin_push _ _ h1 h2 hs.hr
  bpm := by
    cases h : (processSampleAux s x).2.accepted with
    | false => rw [(aux_hr_rejected s x h).2]; exact hs.bpm
    | true =>
      obtain ⟨h1, h2⟩ := aux_accepted_bounds s x h
      rw [(aux_hr_accepted s x h).2, beat_value _ h1]
      exact Or.inr (HRWin_push_snd _ _ h1 h2 hs.hr)
  latestBPM_eq := rfl
  r := by
    cases h : (processSampleAux s x).2.R with
    | nan => rw [(aux_rr_undefined s x h).1]; exact hs.r
    | val r => rw [(aux_rr_defined s x r h).1]; exact RWin_push _ r hs.r
  latestSpO2_eq := rfl

theorem run_snoc (s : PPG) (xs : List Sample) (x : Sample) :
    s.run (xs ++ [x]) = processSample (s.run xs) x := by
  induction xs generalizing s with
  | nil => rfl
  | cons y ys ih => exact ih (processSample s y)

theorem run_append (s : PPG) (xs ys : List Sample) :
    s.run (xs ++ ys) = (s.run xs).run ys := by
  induction xs generalizing s with
  | nil => rfl
  | cons y xs ih => exact ih (processSample s y)

theorem WF_run (s : PPG) (xs : List Sample) (hs : s.WF) : (s.run xs).WF := by
  induction xs generalizing s with
  | nil => exact hs
  | cons y ys ih => exact ih (processSample s y) (WF_step s y hs)

theorem everAccepted_append (s : PPG) (xs ys : List Sample) :
    s.everAccepted (xs ++ ys) = (s.everAccepted xs || (s.run xs).everAccepted ys) := by
  induction xs generalizing s with
  | nil => simp [PPG.everAccepted, PPG.run]
  | cons y xs ih =>
    show ((processSampleAux s y).2.accepted || (processSample s y).everAccepted (xs ++ ys)) = _
    rw [ih]
    simp only [PPG.everAccepted, PPG.run, Bool.or_assoc]

theorem everDefinedR_append (s : PPG) (xs ys : List Sample) :
    s.everDefinedR (xs ++ ys) = (s.everDefinedR xs || (s.run xs).everDefinedR ys) := by
  induction xs generalizing s with
  | nil => simp [PPG.everDefinedR, PPG.run]
  | cons y xs ih =>
    show ((processSampleAux s y).2.ratio_ir.gt (val (1 / 1000000))
      || (processSample s y).everDefinedR (xs ++ ys)) = _
    rw [ih]
    simp only [PPG.everDefinedR, PPG.run, Bool.or_assoc]

theorem bpm_unchanged (s : PPG) (xs : List Sample) (h : s.everAccepted xs = false) :
    (s.run xs).bpmInstant = s.bpmInstant := by
  induction xs generalizing s with
  | nil => rfl
  | cons y ys ih =>
    simp only [PPG.everAccepted, Bool.or_eq_false_iff] at h
    rw [PPG.run, ih _ h.2, (aux_hr_rejected s y h.1).2]

theorem bpm_step_val (s : PPG) (x : Sample) (hs : s.WF) (h : ∃ q : ℚ, s.bpmInstant = val q) :
    ∃ q : ℚ, (processSample s x).bpmInstant = val q := by
  cases ha : (processSampleAux s x).2.accepted with
  | false => rw [(aux_hr_rejected s x ha).2]; exact h
  | true =>
    obtain ⟨h1, h2⟩ := aux_accepted_bounds s x ha
    rw [(aux_hr_accepted s x ha).2, beat_value _ h1]
    obtain ⟨q, hq, -⟩ := HRWin_push_snd _ _ h1 h2 hs.hr
    exact ⟨q, hq⟩

theorem bpm_stays_val (s : PPG) (xs : List Sample) (hs : s.WF)
    (h : ∃ q : ℚ, s.bpmInstant = val q) : ∃ q : ℚ, (s.run xs).bpmInstant = val q := by
  induction xs generalizing s with
  | nil => exact h
  | cons y ys ih => exact ih _ (WF_step s y hs) (bpm_step_val s y hs h)

theorem bpm_val_of_accepted (s : PPG) (xs : List Sample) (hs : s.WF)
    (h : s.everAccepted xs = true) : ∃ q : ℚ, (s.run xs).bpmInstant = val q := by
  induction xs generalizing s with
  | nil => simp [PPG.everAccepted] at h
  | cons y ys ih =>
    cases ha : (processSampleAux s y).2.accepted with
    | true =>
      obtain ⟨h1, h2⟩ := aux_accepted_bounds s y ha
      obtain ⟨q, hq, -⟩ := HRWin_push_snd _ _ h1 h2 hs.hr
      exact bpm_stays_val _ ys (WF_step s y hs)
        ⟨q, by rw [(aux_hr_accepted s y ha).2, beat_value _ h1]; exact hq⟩
    | false =>
      simp only [PPG.everAccepted, ha, Bool.false_or] at h
      exact ih _ (WF_step s y hs) h

theorem reported_bpm (s : PPG) (hs : s.WF) (q : ℚ) (hq : s.bpmInstant = val q) :
    30 < q ∧ q < 200 ∧ s.latestBPM = ⌊q + 1 / 2⌋ ∧ 30 ≤ s.latestBPM ∧ s.latestBPM ≤ 200 := by
  have hb : 60000 / 1999 ≤ q ∧ q ≤ 60000 / 301 := by
    rcases hs.bpm with h | ⟨q1, h, h1, h2⟩
    · rw [hq] at h; cases h
    · rw [hq] at h
      cases h
      exact ⟨h1, h2⟩
  have h30 : (30 : ℚ) < q := lt_of_lt_of_le (by norm_num) hb.1
  have h200 : q < 200 := lt_of_le_of_lt hb.2 (by norm_num)
  have hl : s.latestBPM = ⌊q + 1 / 2⌋ := by
    rw [hs.latestBPM_eq, hq]
    exact bpmToInt_val_in q (by linarith) (by linarith)
  refine ⟨h30, h200, hl, ?_⟩
  rw [hl]
  exact floor_half_bounds q 30 200 (by push_cast; linarith) (by push_cast; linarith)

/-- C10. For every sequence of samples and clock readings fed to `processSample`
from the initial state, after the last call: the reported BPM is 0 if no beat has
been accepted so far; otherwise `bpmInstant` is a window mean strictly between 30
and 200, the reported BPM is its rounding `floor (mean + 0.5)` (the `[20, 220]`
rejection of `bpmToInt` does not fire) and lies in `[30, 200]`; every counted slot
of the BPM window holds `60000/dt` with `300 < dt < 2000`; and once a beat has
been accepted the reported BPM is never 0 again, whatever samples follow. -/
theorem latestBPM_range (xs : List Sample) :
    (PPG.init.everAccepted xs = false → (PPG.init.run xs).latestBPM = 0)
    ∧ (PPG.init.everAccepted xs = true →
        ∃ q : ℚ, (PPG.init.run xs).bpmInstant = val q ∧ 30 < q ∧ q < 200
          ∧ (PPG.init.run xs).latestBPM = ⌊q + 1 / 2⌋
          ∧ 30 ≤ (PPG.init.run xs).latestBPM ∧ (PPG.init.run xs).latestBPM ≤ 200)
    ∧ (∀ i, i < (PPG.init.run xs).hrAvg.cnt →
        ∃ dt : Nat, 300 < dt ∧ dt < 2000
          ∧ (PPG.init.run xs).hrAvg.buf[i]? = some (val (60000 / (dt : ℚ))))
    ∧ (∀ ys : List Sample, PPG.init.everAccepted xs = true →
        (PPG.init.run (xs ++ ys)).latestBPM ≠ 0) := by
  have hwf := WF_run PPG.init xs WF_init
  have key : ∀ zs : List Sample, PPG.init.everAccepted zs = true →
      ∃ q : ℚ, (PPG.init.run zs).bpmInstant = val q ∧ 30 < q ∧ q < 200
        ∧ (PPG.init.run zs).latestBPM = ⌊q + 1 / 2⌋
        ∧ 30 ≤ (PPG.init.run zs).latestBPM ∧ (PPG.init.run zs).latestBPM ≤ 200 := by
    intro zs h
    obtain ⟨q, hq⟩ := bpm_val_of_accepted PPG.init zs WF_init h
    exact ⟨q, hq, reported_bpm _ (WF_run PPG.init zs WF_init) q hq⟩
  refine ⟨?_, key xs, hwf.hr.slots, ?_⟩
  · intro h
    rw [hwf.latestBPM_eq, bpm_unchanged PPG.init xs h]
    simp [PPG.init, bpmToInt]
  · intro ys h
    obtain ⟨q, -, -, -, -, h1, -⟩ := key (xs ++ ys) (by rw [everAccepted_append, h]; rfl)
    omega

/-- Witness of C10: the run (1000, 1000) at clock 0, then (2000, 1000) at clock 400
accepts a beat, and the reported BPM is then in `[30, 200]`. -/
theorem latestBPM_range_witness :
    PPG.init.everAccepted [⟨1000, 1000, 0⟩, ⟨2000, 1000, 400⟩] = true
    ∧ 30 ≤ (PPG.init.run [⟨1000, 1000, 0⟩, ⟨2000, 1000, 400⟩]).latestBPM
    ∧ (PPG.init.run [⟨1000, 1000, 0⟩, ⟨2000, 1000, 400⟩]).latestBPM ≤ 200 := by
  have h : PPG.init.everAccepted [⟨1000, 1000, 0⟩, ⟨2000, 1000, 400⟩] = true := by
    have h1 := second_sample_accepted 400 (by norm_num)
    simp only [PPG.everAccepted]
    rw [show processSample PPG.init ⟨1000, 1000, 0⟩ = afterFirstSample from rfl, h1]
    simp
  obtain ⟨q, -, -, -, -, h1, h2⟩ :=
    (latestBPM_range [⟨1000, 1000, 0⟩, ⟨2000, 1000, 400⟩]).2.1 h
  exact ⟨h, h1, h2⟩

/-! ## `processSample`: the reported SpO2 -/

theorem roundEven_down (q : ℚ) (f : ℤ) (h1 : (f : ℚ) ≤ q) (h2 : q < (f : ℚ) + 1 / 2) :
    roundEven q = f := by
  have hf : ⌊q⌋ = f := Int.floor_eq_iff.mpr ⟨h1, by linarith⟩
  have h3 : q - (f : ℚ) < 1 / 2 := by linarith
  simp only [roundEven, hf, if_pos h3]

theorem roundEven_up (q : ℚ) (f : ℤ) (h1 : (f : ℚ) + 1 / 2 < q) (h2 : q < (f : ℚ) + 1) :
    roundEven q = f + 1 := by
  have hf : ⌊q⌋ = f := Int.floor_eq_iff.mpr ⟨by linarith, h2⟩
  have h3 : ¬ q - (f : ℚ) < 1 / 2 := by linarith
  have h4 : 1 / 2 < q - (f : ℚ) := by linarith
  simp only [roundEven, hf, if_neg h3, if_pos h4]

theorem roundEven_tie (q : ℚ) (f : ℤ) (h : q = (f : ℚ) + 1 / 2) :
    roundEven q = if f % 2 = 0 then f else f + 1 := by
  have hf : ⌊q⌋ = f := Int.floor_eq_iff.mpr ⟨by linarith, by linarith⟩
  have h3 : ¬ q - (f : ℚ) < 1 / 2 := by linarith
  have h4 : ¬ 1 / 2 < q - (f : ℚ) := by linarith
  simp only [roundEven, hf, if_neg h3, if_neg h4]

theorem log2_eq (q : ℚ) (e : ℤ) (hq : 0 < q) (h1 : (2 : ℚ) ^ e ≤ q)
    (h2 : q < (2 : ℚ) ^ (e + 1)) : Int.log 2 q = e := by
  have a : e ≤ Int.log 2 q :=
    (Int.zpow_le_iff_le_log (by norm_num) hq).mp (by exact_mod_cast h1)
  have b : Int.log 2 q < e + 1 :=
    (Int.lt_zpow_iff_log_lt (by norm_num) hq).mp (by exact_mod_cast h2)
  omega

theorem rnd32_eval (q : ℚ) (e n : ℤ) (hq : 0 < q) (h1 : (2 : ℚ) ^ e ≤ q)
    (h2 : q < (2 : ℚ) ^ (e + 1)) (he : -126 ≤ e)
    (hn : roundEven (q / (2 : ℚ) ^ (e - 23)) = n) :
    rnd32 q = (n : ℚ) * (2 : ℚ) ^ (e - 23) := by
  have hne : q ≠ 0 := ne_of_gt hq
  have hlog : Int.log 2 |q| = e := by rw [abs_of_pos hq]; exact log2_eq q e hq h1 h2
  simp only [rnd32, if_neg hne, hlog, max_eq_left he, hn]

theorem spo2FromR_val (r : ℚ) :
    spo2FromR (val r) = val (rnd32 (110 - rnd32 (25 * r))) := rfl

theorem clamp_val (w : ℚ) :
    (if (if Flt.gt (val w) (val 100) then val 100 else val w).lt (val 70) then val 70
      else (if Flt.gt (val w) (val 100) then val 100 else val w))
      = val (min 100 (max 70 w)) := by
  simp only [Flt.gt_val]
  by_cases h1 : (100 : ℚ) < w
  · have h2 : max 70 w = w := max_eq_right (by linarith)
    simp [h1, h2, le_of_lt h1]
    norm_num
  · by_cases h2 : w < 70
    · have h3 : max 70 w = 70 := max_eq_left (le_of_lt h2)
      simp [h1, h2, h3]
      norm_num
    · have h3 : max 70 w = w := max_eq_right (not_lt.mp h2)
      have h4 : min 100 w = w := min_eq_right (not_lt.mp h1)
      simp [h1, h2, h3, h4]

theorem spo2Clamped_val (r : ℚ) :
    spo2Clamped (val r) = val (min 100 (max 70 (rnd32 (110 - rnd32 (25 * r))))) := by
  simp only [spo2Clamped, spo2FromR_val, Flt.isnan_val, Bool.not_false, if_true]
  exact clamp_val _

theorem spo2ToInt_clamped (w : ℚ) :
    spo2ToInt (val (min 100 (max 70 w))) = ⌊min 100 (max 70 w) + 1 / 2⌋ := by
  have h70 : (70 : ℚ) ≤ min 100 (max 70 w) := le_min (by norm_num) (le_max_left _ _)
  have h0 : (0 : ℚ) ≤ min 100 (max 70 w) + 5 / 10 := by linarith
  simp only [spo2ToInt, Flt.isnan_val, Flt.val_add, Flt.toInt_val, if_pos h0]
  norm_num

theorem spo2_report (r : ℚ) :
    spo2ToInt (spo2Clamped (val r))
      = ⌊min 100 (max 70 (rnd32 (110 - rnd32 (25 * r)))) + 1 / 2⌋ := by
  rw [spo2Clamped_val, spo2ToInt_clamped]

theorem spo2_report_nan : spo2ToInt (spo2Clamped nan) = 0 := by
  simp [spo2ToInt, spo2Clamped]

theorem spo2_report_range (r : ℚ) :
    70 ≤ spo2ToInt (spo2Clamped (val r)) ∧ spo2ToInt (spo2Clamped (val r)) ≤ 100 := by
  rw [spo2_report]
  exact floor_half_bounds _ 70 100
    (by push_cast; exact le_min (by norm_num) (le_max_left _ _))
    (by push_cast; exact min_le_left _ _)

theorem R_unchanged (s : PPG) (xs : List Sample) (h : s.everDefinedR xs = false) :
    (s.run xs).R_smooth = s.R_smooth := by
  induction xs generalizing s with
  | nil => rfl
  | cons y ys ih =>
    simp only [PPG.everDefinedR, Bool.or_eq_false_iff] at h
    rw [PPG.run, ih _ h.2, (aux_rr_undefined s y (aux_R_undefined s y h.1)).2]

theorem R_step_val (s : PPG) (x : Sample) (hs : s.WF) (h : ∃ q : ℚ, s.R_smooth = val q) :
    ∃ q : ℚ, (processSample s x).R_smooth = val q := by
  cases hR : (processSampleAux s x).2.R with
  | nan => rw [(aux_rr_undefined s x hR).2]; exact h
  | val r => rw [(aux_rr_defined s x r hR).2]; exact RWin_push_snd _ r hs.r

theorem R_stays_val (s : PPG) (xs : List Sample) (hs : s.WF)
    (h : ∃ q : ℚ, s.R_smooth = val q) : ∃ q : ℚ, (s.run xs).R_smooth = val q := by
  induction xs generalizing s with
  | nil => exact h
  | cons y ys ih => exact ih _ (WF_step s y hs) (R_step_val s y hs h)

theorem R_val_of_defined (s : PPG) (xs : List Sample) (hs : s.WF)
    (h : s.everDefinedR xs = true) : ∃ q : ℚ, (s.run xs).R_smooth = val q := by
  induction xs generalizing s with
  | nil => simp [PPG.everDefinedR] at h
  | cons y ys ih =>
    cases hd : (processSampleAux s y).2.ratio_ir.gt (val (1 / 1000000)) with
    | true =>
      obtain ⟨r, hr⟩ := aux_R_defined s y hs hd
      obtain ⟨q, hq⟩ := RWin_push_snd s.rAvg r hs.r
      exact R_stays_val _ ys (WF_step s y hs) ⟨q, by rw [(aux_rr_defined s y r hr).2]; exact hq⟩
    | false =>
      simp only [PPG.everDefinedR, hd, Bool.false_or] at h
      exact ih _ (WF_step s y hs) h

theorem sum_take_nonneg (buf : List Flt) (c : Nat)
    (h : ∀ i, i < c → ∃ q : ℚ, buf[i]? = some (val q) ∧ 0 ≤ q) :
    ∃ t : ℚ, (buf.take c).sum = val t ∧ 0 ≤ t := by
  induction c with
  | zero => exact ⟨0, by simp, le_refl _⟩
  | succ c ih =>
    obtain ⟨t, ht, h1⟩ := ih (fun i hi => h i (Nat.lt_succ_of_lt hi))
    obtain ⟨q, hq, h2⟩ := h c (Nat.lt_succ_self c)
    exact ⟨t + q, by rw [List.take_succ, hq, List.sum_append, ht]; simp, by linarith⟩

theorem aux_ratio_ir (s : PPG) (x : Sample) :
    (processSampleAux s x).2.ratio_ir
      = if (processSampleAux s x).2.dc_ir.gt (val 1)
        then (processSampleAux s x).2.ac_ir.fabsf / (processSampleAux s x).2.dc_ir
        else val 0 := rfl

theorem ratio_nonneg (a d : Flt) (q : ℚ)
    (h : (if d.gt (val 1) then a.fabsf / d else val 0) = val q) : 0 ≤ q := by
  cases d with
  | nan =>
    simp at h
    rw [← h]
  | val dv =>
    by_cases hd : (1 : ℚ) < dv
    · cases a with
      | nan => simp [hd] at h
      | val av =>
        have hd0 : dv ≠ 0 := by
          intro h0
          rw [h0] at hd
          norm_num at hd
        simp [hd, hd0] at h
        rw [← h]
        exact div_nonneg (abs_nonneg _) (by linarith)
    · simp [hd] at h
      rw [← h]

theorem aux_R_nonneg (s : PPG) (x : Sample) (r : ℚ)
    (h : (processSampleAux s x).2.R = val r) : 0 ≤ r := by
  rw [aux_R] at h
  cases hg : (processSampleAux s x).2.ratio_ir.gt (val (1 / 1000000)) with
  | false => rw [hg] at h; cases h
  | true =>
    rw [hg, if_pos rfl] at h
    cases hqi : (processSampleAux s x).2.ratio_ir with
    | nan => rw [hqi] at hg; simp at hg
    | val qi =>
      rw [hqi] at hg h
      have hpos : (1 : ℚ) / 1000000 < qi := by simpa using hg
      have hqi0 : (0 : ℚ) < qi := lt_trans (by norm_num) hpos
      cases hqr : (processSampleAux s x).2.ratio_red with
      | nan => rw [hqr] at h; simp at h
      | val qr =>
        have hqr0 : 0 ≤ qr := by
          rw [aux_ratio_red] at hqr
          exact ratio_nonneg _ _ qr hqr
        rw [hqr] at h
        simp [ne_of_gt hqi0] at h
        rw [← h]
        exact div_nonneg hqr0 (le_of_lt hqi0)

theorem RNonneg_init : RNonneg PPG.init where
  slots := by
    intro i hi
    refine ⟨0, ?_, le_refl _⟩
    show (List.replicate 8 (val 0))[i]? = some (val 0)
    rw [List.getElem?_replicate, if_pos hi]
  smooth := by
    intro r hr
    cases hr

theorem RNonneg_step (s : PPG) (x : Sample) (hs : s.WF) (hn : RNonneg s) :
    RNonneg (processSample s x) := by
  cases hR : (processSampleAux s x).2.R with
  | nan =>
    obtain ⟨h1, h2⟩ := aux_rr_undefined s x hR
    exact ⟨by rw [h1]; exact hn.slots, by rw [h2]; exact hn.smooth⟩
  | val r =>
    obtain ⟨h1, h2⟩ := aux_rr_defined s x r hR
    have hr0 := aux_R_nonneg s x r hR
    have hw := RWin_push s.rAvg r hs.r
    have hslots : ∀ i, i < 8 →
        ∃ q : ℚ, (MovAvg.push 8 s.rAvg (val r)).1.buf[i]? = some (val q) ∧ 0 ≤ q := by
      intro i hi
      rw [push_buf, List.getElem?_set]
      by_cases hii : s.rAvg.idx = i
      · rw [if_pos hii, if_pos (by rw [hs.r.len, hii]; exact hi)]
        exact ⟨r, rfl, hr0⟩
      · rw [if_neg hii]
        exact hn.slots i hi
    refine ⟨by rw [h1]; exact hslots, ?_⟩
    intro q hq
    rw [h2] at hq
    have hne : (((MovAvg.push 8 s.rAvg (val r)).1.cnt : ℕ) : ℚ) ≠ 0 := by
      apply Nat.cast_ne_zero.mpr
      rw [push_cnt]; split_ifs <;> omega
    obtain ⟨t, ht, ht0⟩ := sum_take_nonneg (MovAvg.push 8 s.rAvg (val r)).1.buf
      (MovAvg.push 8 s.rAvg (val r)).1.cnt
      (fun i hi => hslots i (Nat.lt_of_lt_of_le hi hw.cnt_le))
    rw [push_snd _ _ _ (by rw [hw.len]; exact hw.cnt_le), ht, Flt.ofNat_eq, Flt.val_div,
      if_neg hne] at hq
    injection hq with hq
    rw [← hq]
    exact div_nonneg ht0 (Nat.cast_nonneg _)

theorem RNonneg_run (s : PPG) (xs : List Sample) (hs : s.WF) (hn : RNonneg s) :
    RNonneg (s.run xs) := by
  induction xs generalizing s with
  | nil => exact hn
  | cons y ys ih => exact ih _ (WF_step s y hs) (RNonneg_step s y hs hn)

/-- C4, amended. After every call of `processSample` (the last sample `x` of a run
from the initial state): the reported SpO2 is 0 if no sample so far had a defined R
(`ratio_ir > 1e-6`); otherwise `R_smooth` is a number, not negative, and the
reported SpO2 is `floor (min 100 (max 70 s) + 0.5)` where `s` is the binary32
value the code computes for `110 - 25*R_smooth`, the product and the difference
each rounded to the nearest binary32; it is 100 when `s ≥ 100` and 70 when
`s ≤ 70`.  A sample with defined R pushes R into the R window and `R_smooth`
becomes the mean returned by that push; a sample with undefined R leaves the
window, `R_smooth` and the reported SpO2 unchanged.  The reported SpO2 is always 0
or in `[70, 100]`.  On lines 308-313 and 328 a raw SpO2 of 130 gives 100 and a raw
SpO2 of 40 gives 70 (130 itself needs a negative `R_smooth`, which no run has). -/
theorem latestSpO2_spec (xs : List Sample) (x : Sample) :
    (PPG.init.everDefinedR (xs ++ [x]) = false → (PPG.init.run (xs ++ [x])).latestSpO2 = 0)
    ∧ (PPG.init.everDefinedR (xs ++ [x]) = true →
        ∃ r : ℚ, (PPG.init.run (xs ++ [x])).R_smooth = val r ∧ 0 ≤ r
          ∧ (PPG.init.run (xs ++ [x])).latestSpO2
              = ⌊min 100 (max 70 (rnd32 (110 - rnd32 (25 * r)))) + 1 / 2⌋
          ∧ (100 ≤ rnd32 (110 - rnd32 (25 * r)) →
              (PPG.init.run (xs ++ [x])).latestSpO2 = 100)
          ∧ (rnd32 (110 - rnd32 (25 * r)) ≤ 70 →
              (PPG.init.run (xs ++ [x])).latestSpO2 = 70))
    ∧ ((processSampleAux (PPG.init.run xs) x).2.ratio_ir.gt (val (1 / 1000000)) = true →
        ∃ r : ℚ, (processSampleAux (PPG.init.run xs) x).2.R = val r
          ∧ (PPG.init.run (xs ++ [x])).rAvg = ((PPG.init.run xs).rAvg.push 8 (val r)).1
          ∧ (PPG.init.run (xs ++ [x])).R_smooth = ((PPG.init.run xs).rAvg.push 8 (val r)).2)
    ∧ ((processSampleAux (PPG.init.run xs) x).2.ratio_ir.gt (val (1 / 1000000)) = false →
        (PPG.init.run (xs ++ [x])).rAvg = (PPG.init.run xs).rAvg
        ∧ (PPG.init.run (xs ++ [x])).R_smooth = (PPG.init.run xs).R_smooth
        ∧ (PPG.init.run (xs ++ [x])).latestSpO2 = (PPG.init.run xs).latestSpO2)
    ∧ ((PPG.init.run (xs ++ [x])).latestSpO2 = 0
        ∨ (70 ≤ (PPG.init.run (xs ++ [x])).latestSpO2
            ∧ (PPG.init.run (xs ++ [x])).latestSpO2 ≤ 100))
    ∧ (∀ r : ℚ, spo2FromR (val r) = val 130 → spo2ToInt (spo2Clamped (val r)) = 100)
    ∧ (∀ r : ℚ, spo2FromR (val r) = val 40 → spo2ToInt (spo2Clamped (val r)) = 70) := by
  have hwf0 := WF_run PPG.init xs WF_init
  have hwf := WF_run PPG.init (xs ++ [x]) WF_init
  refine ⟨?_, ?_, ?_, ?_, ?_, ?_, ?_⟩
  · intro h
    rw [hwf.latestSpO2_eq, R_unchanged PPG.init _ h]
    exact spo2_report_nan
  · intro h
    obtain ⟨r, hr⟩ := R_val_of_defined PPG.init _ WF_init h
    have hrep : (PPG.init.run (xs ++ [x])).latestSpO2
        = ⌊min 100 (max 70 (rnd32 (110 - rnd32 (25 * r)))) + 1 / 2⌋ := by
      rw [hwf.latestSpO2_eq, hr, spo2_report]
    refine ⟨r, hr, (RNonneg_run PPG.init _ WF_init RNonneg_init).smooth r hr, hrep, ?_, ?_⟩
    · intro hw
      rw [hrep, max_eq_right (by linarith), min_eq_left hw, Int.floor_eq_iff]
      norm_num
    · intro hw
      rw [hrep, max_eq_left hw, min_eq_right (by norm_num), Int.floor_eq_iff]
      norm_num
  · intro h
    obtain ⟨r, hr⟩ := aux_R_defined _ x hwf0 h
    rw [run_snoc]
    exact ⟨r, hr, aux_rr_defined _ x r hr⟩
  · intro h
    have h1 := aux_rr_undefined _ x (aux_R_undefined _ x h)
    rw [run_snoc]
    refine ⟨h1.1, h1.2, ?_⟩
    rw [aux_latestSpO2, h1.2, hwf0.latestSpO2_eq]
  · rw [hwf.latestSpO2_eq]
    cases (PPG.init.run (xs ++ [x])).R_smooth with
    | nan => exact Or.inl spo2_report_nan
    | val r => exact Or.inr (spo2_report_range r)
  · intro r hr
    rw [spo2FromR_val] at hr
    have h1 : rnd32 (110 - rnd32 (25 * r)) = 130 := by injection hr
    rw [spo2_report, h1, Int.floor_eq_iff]
    norm_num
  · intro r hr
    rw [spo2FromR_val] at hr
    have h1 : rnd32 (110 - rnd32 (25 * r)) = 40 := by injection hr
    rw [spo2_report, h1, Int.floor_eq_iff]
    norm_num

theorem spo2FromR_raw40 : spo2FromR (val (14 / 5)) = val 40 := by
  have h1 : rnd32 (25 * (14 / 5)) = 70 := by
    rw [rnd32_eval _ 6 9175040 (by norm_num) (by norm_num) (by norm_num) (by norm_num)
      (roundEven_down _ 9175040 (by norm_num) (by norm_num))]
    norm_num
  have h2 : rnd32 (110 - 70) = 40 := by
    rw [rnd32_eval _ 5 10485760 (by norm_num) (by norm_num) (by norm_num) (by norm_num)
      (roundEven_down _ 10485760 (by norm_num) (by norm_num))]
    norm_num
  rw [spo2FromR_val, h1, h2]

/-- Witness of C4: in the run (1000, 1000), (2000, 1000) the second sample has a
defined R, which is pushed into the R window and whose returned mean becomes
`R_smooth`; and `R_smooth = 2.8`, a raw SpO2 of 40, is reported as 70. -/
theorem latestSpO2_spec_witness :
    (processSampleAux (PPG.init.run [⟨1000, 1000, 0⟩]) ⟨2000, 1000, 100⟩).2.ratio_ir.gt
        (val (1 / 1000000)) = true
    ∧ (∃ r : ℚ, (processSampleAux (PPG.init.run [⟨1000, 1000, 0⟩]) ⟨2000, 1000, 100⟩).2.R = val r
        ∧ (PPG.init.run ([⟨1000, 1000, 0⟩] ++ [⟨2000, 1000, 100⟩])).rAvg
            = ((PPG.init.run [⟨1000, 1000, 0⟩]).rAvg.push 8 (val r)).1
        ∧ (PPG.init.run ([⟨1000, 1000, 0⟩] ++ [⟨2000, 1000, 100⟩])).R_smooth
            = ((PPG.init.run [⟨1000, 1000, 0⟩]).rAvg.push 8 (val r)).2)
    ∧ spo2FromR (val (14 / 5)) = val 40
    ∧ spo2ToInt (spo2Clamped (val (14 / 5))) = 70 := by
  have h : (processSampleAux (PPG.init.run [⟨1000, 1000, 0⟩]) ⟨2000, 1000, 100⟩).2.ratio_ir.gt
      (val (1 / 1000000)) = true := by
    rw [show PPG.init.run [⟨1000, 1000, 0⟩] = afterFirstSample from rfl, afterFirstSample_eq]
    simp only [processSampleAux, PPG.init, emaAlphaDC, emaAlphaAC, emaAlphaRms, thrFactor,
      EMA_step_set, Flt.ofNat_eq, Flt.val_sub, Flt.fabsf_val, Flt.val_mul, Flt.gt_val]
    norm_num
  exact ⟨h, (latestSpO2_spec [⟨1000, 1000, 0⟩] ⟨2000, 1000, 100⟩).2.2.1 h, spo2FromR_raw40,
    (latestSpO2_spec [⟨1000, 1000, 0⟩] ⟨2000, 1000, 100⟩).2.2.2.2.2.2 (14 / 5) spo2FromR_raw40⟩

theorem rounding_sample_R :
    (processSampleAux afterFirstSample ⟨34862, 224528, 100⟩).2.R
      = val (250826357 / 171798857) := by
  rw [afterFirstSample_eq]
  simp only [processSampleAux, PPG.init, emaAlphaDC, emaAlphaAC, emaAlphaRms, thrFactor,
    EMA_step_set, Flt.ofNat_eq, Flt.val_sub, Flt.fabsf_val, Flt.val_mul, Flt.gt_val,
    Flt.val_add]
  norm_num
  rw [abs_of_pos (show (0 : ℚ) < 965067 / 100 by norm_num),
    abs_of_pos (show (0 : ℚ) < 1592637 / 25 by norm_num)]
  norm_num

theorem push_fresh_R (r : ℚ) : (MovAvg.push 8 (MovAvg.new 8) (val r)).2 = val r := by
  simp [MovAvg.push, MovAvg.new, List.range_succ]

theorem rnd32_product :
    rnd32 (25 * (250826357 / 171798857)) = 9568257 / 262144 := by
  rw [rnd32_eval _ 5 9568257 (by norm_num) (by norm_num) (by norm_num) (by norm_num)
    (by
      have h := roundEven_up (25 * (250826357 / 171798857) / (2 : ℚ) ^ ((5 : ℤ) - 23)) 9568256
        (by norm_num) (by norm_num)
      rw [h]; norm_num)]
  norm_num

theorem rnd32_difference :
    rnd32 (110 - 9568257 / 262144) = 147 / 2 := by
  rw [rnd32_eval _ 6 9633792 (by norm_num) (by norm_num) (by norm_num) (by norm_num)
    (by
      have h := roundEven_tie ((110 - 9568257 / 262144) / (2 : ℚ) ^ ((6 : ℤ) - 23)) 9633791
        (by norm_num)
      rw [h]; norm_num)]
  norm_num

/-- C4, counterexample. In the run (1000, 1000) at clock 0, (34862, 224528) at clock
100 the second sample has a defined R and `R_smooth` becomes
`250826357/171798857 = 1.46000015...`.  The exact value of `110 - 25*R_smooth` is
`73.49999625...`, whose nearest integer is 73; the code rounds the product to
`36.5 + 2^-18` and the difference, a tie, to `73.5`, and reports 74. -/
theorem latestSpO2_not_exact_rounding :
    PPG.init.everDefinedR [⟨1000, 1000, 0⟩, ⟨34862, 224528, 100⟩] = true
    ∧ (PPG.init.run [⟨1000, 1000, 0⟩, ⟨34862, 224528, 100⟩]).R_smooth
        = val (250826357 / 171798857)
    ∧ ⌊min (100 : ℚ) (max 70 (110 - 25 * (250826357 / 171798857))) + 1 / 2⌋ = 73
    ∧ (PPG.init.run [⟨1000, 1000, 0⟩, ⟨34862, 224528, 100⟩]).latestSpO2 = 74 := by
  have hR := rounding_sample_R
  have hrun : PPG.init.run [⟨1000, 1000, 0⟩, ⟨34862, 224528, 100⟩]
      = processSample afterFirstSample ⟨34862, 224528, 100⟩ := rfl
  have hsm : (processSample afterFirstSample ⟨34862, 224528, 100⟩).R_smooth
      = val (250826357 / 171798857) := by
    rw [(aux_rr_defined _ _ _ hR).2]
    have h0 : afterFirstSample.rAvg = MovAvg.new 8 := by rw [afterFirstSample_eq]; rfl
    rw [h0, push_fresh_R]
  refine ⟨?_, by rw [hrun, hsm], ?_, ?_⟩
  · have hg : (processSampleAux afterFirstSample ⟨34862, 224528, 100⟩).2.ratio_ir.gt
        (val (1 / 1000000)) = true := by
      cases hc : (processSampleAux afterFirstSample ⟨34862, 224528, 100⟩).2.ratio_ir.gt
          (val (1 / 1000000)) with
      | true => rfl
      | false =>
        have := aux_R_undefined _ _ hc
        rw [hR] at this
        cases this
    show ((processSampleAux PPG.init ⟨1000, 1000, 0⟩).2.ratio_ir.gt (val (1 / 1000000))
      || ((processSampleAux afterFirstSample ⟨34862, 224528, 100⟩).2.ratio_ir.gt
            (val (1 / 1000000)) || false)) = true
    rw [hg]
    simp
  · rw [Int.floor_eq_iff]
    norm_num
  · rw [hrun, aux_latestSpO2, hsm, spo2_report, rnd32_product, rnd32_difference,
      Int.floor_eq_iff]
    norm_num

/-! ## `sendIfDue` and `loop` -/

theorem sendIfDue_not_due (s : NetState) (snap : Snapshot) (e : NetIn)
    (h : u32sub e.now s.lastSendMs < SEND_PERIOD_MS) : sendIfDue s snap e = (s, []) := by
  simp [sendIfDue, h]

theorem sendIfDue_due (s : NetState) (snap : Snapshot) (e : NetIn)
    (h : SEND_PERIOD_MS ≤ u32sub e.now s.lastSendMs) :
    (sendIfDue s snap e).1 = ⟨e.now, (ensureWiFi s.lastAttempt e).1⟩
    ∧ (sendIfDue s snap e).2
        = (ensureWiFi s.lastAttempt e).2 ++
            (if !e.connected2 then [Event.logSkipped]
             else if !e.beginOk then [Event.logBeginFailed]
             else [Event.post snap, Event.logCode e.code]) := by
  have h1 : ¬ u32sub e.now s.lastSendMs < SEND_PERIOD_MS := not_lt.mpr h
  simp only [sendIfDue, if_neg h1]
  split_ifs <;> exact ⟨rfl, rfl⟩

theorem sendIfDue_events_ne_nil (s : NetState) (snap : Snapshot) (e : NetIn)
    (h : SEND_PERIOD_MS ≤ u32sub e.now s.lastSendMs) : (sendIfDue s snap e).2 ≠ [] := by
  rw [(sendIfDue_due s snap e h).2]
  split_ifs <;> simp

theorem u32sub_real (T0 T1 : Nat) (h : T0 ≤ T1) :
    u32sub (T1 % 4294967296) (T0 % 4294967296) = (T1 - T0) % 4294967296 := by
  unfold u32sub
  omega

theorem loop_net (sys : Sys) (i : LoopIn) :
    (loop sys i).1.net
        = (sendIfDue sys.net
            (Sys.snapshot ⟨if i.check then sys.ppg.run i.samples else sys.ppg,
              (serviceEnvSensors sys.env i.env).1, sys.net⟩) i.net).1
    ∧ (loop sys i).2
        = (serviceEnvSensors sys.env i.env).2 ++
          (sendIfDue sys.net
            (Sys.snapshot ⟨if i.check then sys.ppg.run i.samples else sys.ppg,
              (serviceEnvSensors sys.env i.env).1, sys.net⟩) i.net).2 := by
  cases hc : i.check with
  | false => exact ⟨by simp [loop, hc], by simp [loop, hc]⟩
  | true => exact ⟨by simp [loop, hc], by simp [loop, hc]⟩

/-- C6. For every call of `sendIfDue` at clock value `now`: if
`(now - lastSendMs) mod 2^32 ≥ SEND_PERIOD_MS = 2000` an attempt is started
(`lastSendMs` becomes `now`, `ensureWiFi` runs, and a POST or a diagnostic is
emitted), otherwise the call changes no state and emits nothing; so an attempt is
started iff the 32-bit difference is at least 2000.  The check is correct across a
wrap of the counter: for real instants `T0 ≤ T1` less than `2^32` ms apart, shown by
the counter modulo `2^32`, an attempt is started iff `T1 - T0 ≥ 2000`.  Every
`loop()` tick runs `sendIfDue` on the current send timer, whether or not
`ppg.check()` reported data. -/
theorem sendIfDue_deadline (s : NetState) (snap : Snapshot) (e : NetIn) :
    (2000 ≤ (e.now + 4294967296 - s.lastSendMs) % 4294967296 →
        (sendIfDue s snap e).1.lastSendMs = e.now
        ∧ (sendIfDue s snap e).1.lastAttempt = (ensureWiFi s.lastAttempt e).1
        ∧ (sendIfDue s snap e).2 ≠ [])
    ∧ ((e.now + 4294967296 - s.lastSendMs) % 4294967296 < 2000 →
        sendIfDue s snap e = (s, []))
    ∧ ((sendIfDue s snap e).2 ≠ []
        ↔ 2000 ≤ (e.now + 4294967296 - s.lastSendMs) % 4294967296)
    ∧ (∀ T0 T1 : Nat, T0 ≤ T1 → T1 - T0 < 4294967296 →
        s.lastSendMs = T0 % 4294967296 → e.now = T1 % 4294967296 →
        ((sendIfDue s snap e).2 ≠ [] ↔ 2000 ≤ T1 - T0))
    ∧ (∀ (sys : Sys) (i : LoopIn),
        (loop sys i).1.net
            = (sendIfDue sys.net
                (Sys.snapshot ⟨if i.check then sys.ppg.run i.samples else sys.ppg,
                  (serviceEnvSensors sys.env i.env).1, sys.net⟩) i.net).1
        ∧ (loop sys i).2
            = (serviceEnvSensors sys.env i.env).2 ++
              (sendIfDue sys.net
                (Sys.snapshot ⟨if i.check then sys.ppg.run i.samples else sys.ppg,
                  (serviceEnvSensors sys.env i.env).1, sys.net⟩) i.net).2) := by
  have hiff : (sendIfDue s snap e).2 ≠ []
      ↔ 2000 ≤ (e.now + 4294967296 - s.lastSendMs) % 4294967296 := by
    constructor
    · intro h
      by_contra hlt
      exact h (by rw [sendIfDue_not_due s snap e (not_le.mp hlt)])
    · exact sendIfDue_events_ne_nil s snap e
  refine ⟨?_, ?_, hiff, ?_, loop_net⟩
  · intro h
    have h1 := (sendIfDue_due s snap e h).1
    exact ⟨by rw [h1], by rw [h1], sendIfDue_events_ne_nil s snap e h⟩
  · exact sendIfDue_not_due s snap e
  · intro T0 T1 h01 hlt hs he
    rw [hiff]
    have := u32sub_real T0 T1 h01
    rw [← hs, ← he] at this
    unfold u32sub at this
    rw [this, Nat.mod_eq_of_lt hlt]

/-- Witness of C6: last send at clock 0 and a check at clock 2000 start an attempt;
a check at clock 1999 changes nothing. -/
theorem sendIfDue_deadline_witness :
    (sendIfDue ⟨0, 0⟩ ⟨0, 0, 0, 0, nan, nan, nan⟩ ⟨2000, true, 2000, 2000, true, true, 200⟩).1.lastSendMs
        = 2000
    ∧ sendIfDue ⟨0, 0⟩ ⟨0, 0, 0, 0, nan, nan, nan⟩ ⟨1999, true, 1999, 1999, true, true, 200⟩
        = (⟨0, 0⟩, []) :=
  ⟨((sendIfDue_deadline ⟨0, 0⟩ ⟨0, 0, 0, 0, nan, nan, nan⟩
        ⟨2000, true, 2000, 2000, true, true, 200⟩).1 (by decide)).1,
   (sendIfDue_deadline ⟨0, 0⟩ ⟨0, 0, 0, 0, nan, nan, nan⟩
        ⟨1999, true, 1999, 1999, true, true, 200⟩).2.1 (by decide)⟩

/-! ## Link down: no POST, rate-limited reconnects -/

theorem sendIfDue_begin_iff (s : NetState) (snap : Snapshot) (e : NetIn) :
    Event.wifiBegin ∈ (sendIfDue s snap e).2
      ↔ (SEND_PERIOD_MS ≤ u32sub e.now s.lastSendMs ∧ e.connected1 = false
          ∧ 5000 < u32sub e.m1 s.lastAttempt) := by
  by_cases hd : u32sub e.now s.lastSendMs < SEND_PERIOD_MS
  · rw [sendIfDue_not_due s snap e hd]
    simp
    intro h
    omega
  · rw [(sendIfDue_due s snap e (not_lt.mp hd)).2]
    have hd1 := not_lt.mp hd
    cases h1 : e.connected1 <;> cases h2 : e.connected2 <;> cases h3 : e.beginOk <;>
      by_cases h4 : 5000 < u32sub e.m1 s.lastAttempt <;>
      simp [ensureWiFi, h1, h2, h3, h4, hd1]

theorem sendIfDue_lastAttempt (s : NetState) (snap : Snapshot) (e : NetIn) :
    (sendIfDue s snap e).1.lastAttempt
      = if Event.wifiBegin ∈ (sendIfDue s snap e).2 then e.m2 else s.lastAttempt := by
  by_cases hd : u32sub e.now s.lastSendMs < SEND_PERIOD_MS
  · rw [sendIfDue_not_due s snap e hd]
    simp
  · have hb := sendIfDue_begin_iff s snap e
    rw [(sendIfDue_due s snap e (not_lt.mp hd)).1]
    by_cases hw : Event.wifiBegin ∈ (sendIfDue s snap e).2
    · rw [if_pos hw]
      obtain ⟨-, h1, h2⟩ := hb.mp hw
      simp [ensureWiFi, h1, h2]
    · rw [if_neg hw]
      have h3 : ¬ (e.connected1 = false ∧ 5000 < u32sub e.m1 s.lastAttempt) :=
        fun h => hw (hb.mpr ⟨not_lt.mp hd, h.1, h.2⟩)
      cases h1 : e.connected1
      · have h4 : ¬ 5000 < u32sub e.m1 s.lastAttempt := fun h => h3 ⟨h1, h⟩
        simp [ensureWiFi, h1, h4]
      · simp [ensureWiFi, h1]

theorem sendIfDue_no_post (s : NetState) (snap : Snapshot) (e : NetIn)
    (h : e.connected2 = false) : ∀ ev ∈ (sendIfDue s snap e).2, ev.isPost = false := by
  by_cases hd : u32sub e.now s.lastSendMs < SEND_PERIOD_MS
  · rw [sendIfDue_not_due s snap e hd]
    simp
  · rw [(sendIfDue_due s snap e (not_lt.mp hd)).2]
    cases h1 : e.connected1 <;> by_cases h4 : 5000 < u32sub e.m1 s.lastAttempt <;>
      simp [ensureWiFi, h, h1, h4, Event.isPost]

theorem runSend_no_post (s : NetState) (cs : List NetCall) (h : ∀ c ∈ cs, c.down) :
    ∀ ev ∈ (runSend s cs).2, ev.isPost = false := by
  induction cs generalizing s with
  | nil => simp [runSend]
  | cons c cs ih =>
    intro ev hev
    simp only [runSend, List.mem_append] at hev
    rcases hev with hev | hev
    · exact sendIfDue_no_post s c.snap c.toIn (h c (List.mem_cons_self _ _)).2 ev hev
    · exact ih _ (fun d hd => h d (List.mem_cons_of_mem _ hd)) ev hev

theorem u32sub_real_le (T0 T1 : Nat) (h : T0 ≤ T1) :
    u32sub (T1 % 4294967296) (T0 % 4294967296) ≤ T1 - T0 := by
  rw [u32sub_real T0 T1 h]
  exact Nat.mod_le _ _

theorem attempts_spaced (s : NetState) (cs : List NetCall) (T0 t a : Nat)
    (hla : s.lastAttempt = T0 % 4294967296) (h0 : T0 ≤ t) (hc : Chrono t cs) :
    List.Chain (fun p q : Nat × Nat => p.2 + 5000 < q.1) (a, T0) (attempts s cs) := by
  induction cs generalizing s T0 t a with
  | nil => exact List.Chain.nil
  | cons c cs ih =>
    obtain ⟨h1, h2, h3, h4⟩ := hc
    have hla1 := sendIfDue_lastAttempt s c.snap c.toIn
    simp only [attempts]
    by_cases hw : Event.wifiBegin ∈ (sendIfDue s c.snap c.toIn).2
    · rw [if_pos hw] at hla1 ⊢
      obtain ⟨-, -, h5⟩ := (sendIfDue_begin_iff s c.snap c.toIn).mp hw
      have h6 : u32sub (c.t1 % 4294967296) (T0 % 4294967296) ≤ c.t1 - T0 :=
        u32sub_real_le T0 c.t1 (by omega)
      rw [hla] at h5
      have h7 : 5000 < u32sub (c.t1 % 4294967296) (T0 % 4294967296) := h5
      refine List.Chain.cons ?_ (ih _ c.t2 c.t2 c.t1 hla1 (le_refl _) h4)
      show T0 + 5000 < c.t1
      omega
    · rw [if_neg hw] at hla1 ⊢
      exact ih _ T0 c.t2 a (by rw [hla1, hla]) (by omega) h4

theorem cooldownCount_fire (la n t : Nat) (h : 5000 < u32sub (t % 4294967296) la) :
    cooldownCount la (n + 1) t = 1 + cooldownCount (t % 4294967296) n (t + 2000) := by
  simp only [cooldownCount, if_pos h]

theorem cooldownCount_skip (la n t : Nat) (h : ¬ 5000 < u32sub (t % 4294967296) la) :
    cooldownCount la (n + 1) t = cooldownCount la n (t + 2000) := by
  simp only [cooldownCount, if_neg h]

theorem cooldownCount_after_two (t n : Nat) (hn : n ≤ 2) :
    cooldownCount (t % 4294967296) n (t + 2000) = 0 := by
  have c1 : ¬ 5000 < u32sub ((t + 2000) % 4294967296) (t % 4294967296) := by
    unfold u32sub; omega
  have c2 : ¬ 5000 < u32sub ((t + 2000 + 2000) % 4294967296) (t % 4294967296) := by
    unfold u32sub; omega
  rcases n with _ | _ | _ | n
  · rfl
  · rw [cooldownCount_skip _ _ _ c1]; rfl
  · rw [cooldownCount_skip _ _ _ c1, cooldownCount_skip _ _ _ c2]; rfl
  · omega

theorem cooldownCount_after_three (t n : Nat) :
    cooldownCount (t % 4294967296) (n + 3) (t + 2000)
      = 1 + cooldownCount ((t + 6000) % 4294967296) n (t + 6000 + 2000) := by
  have c1 : ¬ 5000 < u32sub ((t + 2000) % 4294967296) (t % 4294967296) := by
    unfold u32sub; omega
  have c2 : ¬ 5000 < u32sub ((t + 2000 + 2000) % 4294967296) (t % 4294967296) := by
    unfold u32sub; omega
  have c3 : 5000 < u32sub ((t + 2000 + 2000 + 2000) % 4294967296) (t % 4294967296) := by
    unfold u32sub; omega
  rw [cooldownCount_skip _ _ _ c1, cooldownCount_skip _ _ _ c2, cooldownCount_fire _ _ _ c3]

theorem cooldownCount_seven (la t : Nat) (hla : la < 4294967296) :
    2 ≤ cooldownCount la 7 t ∧ cooldownCount la 7 t ≤ 3 := by
  by_cases h0 : 5000 < u32sub (t % 4294967296) la
  · rw [cooldownCount_fire _ _ _ h0, cooldownCount_after_three t 3,
      cooldownCount_after_three (t + 6000) 0]
    simp [cooldownCount]
  · rw [cooldownCount_skip _ _ _ h0]
    by_cases h1 : 5000 < u32sub ((t + 2000) % 4294967296) la
    · rw [cooldownCount_fire _ _ _ h1, cooldownCount_after_three (t + 2000) 2,
        cooldownCount_after_two (t + 2000 + 6000) 2 (le_refl _)]
      omega
    · rw [cooldownCount_skip _ _ _ h1]
      by_cases h2 : 5000 < u32sub ((t + 2000 + 2000) % 4294967296) la
      · rw [cooldownCount_fire _ _ _ h2, cooldownCount_after_three (t + 2000 + 2000) 1,
          cooldownCount_after_two (t + 2000 + 2000 + 6000) 1 (by omega)]
        omega
      · rw [cooldownCount_skip _ _ _ h2]
        have h3 : 5000 < u32sub ((t + 2000 + 2000 + 2000) % 4294967296) la := by
          unfold u32sub at h0 ⊢
          omega
        rw [cooldownCount_fire _ _ _ h3, cooldownCount_after_three (t + 2000 + 2000 + 2000) 0]
        simp [cooldownCount]

theorem attempts_downChecks (snap : Snapshot) (n : Nat) (s : NetState) (t : Nat)
    (h : n = 0 ∨ SEND_PERIOD_MS ≤ u32sub (t % 4294967296) s.lastSendMs) :
    (attempts s (downChecks snap 2000 n t)).length = cooldownCount s.lastAttempt n t := by
  induction n generalizing s t with
  | zero => rfl
  | succ n ih =>
    have hd : SEND_PERIOD_MS ≤ u32sub (t % 4294967296) s.lastSendMs := by
      rcases h with h | h
      · omega
      · exact h
    have hb := sendIfDue_begin_iff s snap (downCheck snap t).toIn
    have hla := sendIfDue_lastAttempt s snap (downCheck snap t).toIn
    have hls : (sendIfDue s snap (downCheck snap t).toIn).1.lastSendMs = t % 4294967296 := by
      rw [(sendIfDue_due s snap (downCheck snap t).toIn hd).1]
      rfl
    have hnext : n = 0 ∨ SEND_PERIOD_MS
        ≤ u32sub ((t + 2000) % 4294967296)
            (sendIfDue s snap (downCheck snap t).toIn).1.lastSendMs := by
      right
      rw [hls]
      unfold u32sub SEND_PERIOD_MS
      omega
    have hih := ih (sendIfDue s snap (downCheck snap t).toIn).1 (t + 2000) hnext
    show (attempts s (downCheck snap t :: downChecks snap 2000 n (t + 2000))).length = _
    simp only [attempts]
    by_cases hw : Event.wifiBegin ∈ (sendIfDue s snap (downCheck snap t).toIn).2
    · have hc : 5000 < u32sub (t % 4294967296) s.lastAttempt := (hb.mp hw).2.2
      rw [if_pos hw] at hla
      rw [show (downCheck snap t).snap = snap from rfl, if_pos hw, List.length_cons, hih, hla,
        cooldownCount_fire _ _ _ hc]
      show cooldownCount (t % 4294967296) n (t + 2000) + 1 = _
      omega
    · have hc : ¬ 5000 < u32sub (t % 4294967296) s.lastAttempt :=
        fun hc => hw (hb.mpr ⟨hd, rfl, hc⟩)
      rw [if_neg hw] at hla
      rw [show (downCheck snap t).snap = snap from rfl, if_neg hw, hih, hla,
        cooldownCount_skip _ _ _ hc]

theorem downChecks_down (snap : Snapshot) (n t : Nat) :
    ∀ c ∈ downChecks snap 2000 n t, c.down := by
  induction n generalizing t with
  | zero => simp [downChecks]
  | succ n ih =>
    intro c hc
    simp only [downChecks, List.mem_cons] at hc
    rcases hc with rfl | hc
    · exact ⟨rfl, rfl⟩
    · exact ih _ c hc

theorem attempts_down_step (snap : Snapshot) (s : NetState) (t : Nat) (cs : List NetCall)
    (hd : SEND_PERIOD_MS ≤ u32sub (t % 4294967296) s.lastSendMs) :
    attempts s (downCheck snap t :: cs)
      = if 5000 < u32sub (t % 4294967296) s.lastAttempt
        then (t, t) :: attempts ⟨t % 4294967296, t % 4294967296⟩ cs
        else attempts ⟨t % 4294967296, s.lastAttempt⟩ cs := by
  have hb := sendIfDue_begin_iff s snap (downCheck snap t).toIn
  have hla := sendIfDue_lastAttempt s snap (downCheck snap t).toIn
  have hst := (sendIfDue_due s snap (downCheck snap t).toIn hd).1
  have hst1 : (sendIfDue s snap (downCheck snap t).toIn).1
      = ⟨t % 4294967296, (sendIfDue s snap (downCheck snap t).toIn).1.lastAttempt⟩ := by
    rw [hst]; rfl
  simp only [attempts]
  rw [show (downCheck snap t).snap = snap from rfl]
  by_cases hw : Event.wifiBegin ∈ (sendIfDue s snap (downCheck snap t).toIn).2
  · have hc : 5000 < u32sub (t % 4294967296) s.lastAttempt := (hb.mp hw).2.2
    rw [if_pos hw] at hla
    rw [if_pos hw, if_pos hc, hst1, hla]
    rfl
  · have hc : ¬ 5000 < u32sub (t % 4294967296) s.lastAttempt :=
      fun hc => hw (hb.mpr ⟨hd, rfl, hc⟩)
    rw [if_neg hw] at hla
    rw [if_neg hw, if_neg hc, hst1, hla]

theorem boot_attempts (snap : Snapshot) :
    attempts ⟨0, 0⟩ (downChecks snap 2000 6 2000) = [(6000, 6000), (12000, 12000)] := by
  show attempts ⟨0, 0⟩ [downCheck snap 2000, downCheck snap 4000, downCheck snap 6000,
    downCheck snap 8000, downCheck snap 10000, downCheck snap 12000] = _
  rw [attempts_down_step snap _ 2000 _ (by norm_num [u32sub, SEND_PERIOD_MS]),
    if_neg (by norm_num [u32sub]),
    attempts_down_step snap _ 4000 _ (by norm_num [u32sub, SEND_PERIOD_MS]),
    if_neg (by norm_num [u32sub]),
    attempts_down_step snap _ 6000 _ (by norm_num [u32sub, SEND_PERIOD_MS]),
    if_pos (by norm_num [u32sub]),
    attempts_down_step snap _ 8000 _ (by norm_num [u32sub, SEND_PERIOD_MS]),
    if_neg (by norm_num [u32sub]),
    attempts_down_step snap _ 10000 _ (by norm_num [u32sub, SEND_PERIOD_MS]),
    if_neg (by norm_num [u32sub]),
    attempts_down_step snap _ 12000 _ (by norm_num [u32sub, SEND_PERIOD_MS]),
    if_pos (by norm_num [u32sub])]
  rfl

/-- C7. In every execution from boot in which the link reports disconnected
throughout (the calls of `sendIfDue` placed at non-decreasing real instants):
`sendIfDue` issues no HTTP POST, and between the clock read that follows one
`WiFi.begin` of `ensureWiFi` and the clock read that precedes the next one more
than 5000 ms elapse.  With the link down and seven due checks 2000 ms apart, at
`t, t + 2000, ..., t + 12000`, from any state of the timers, there are 2 or 3
reconnect attempts and no POST; from boot, the checks at 2000, ..., 12000 ms give
the attempts at 6000 and 12000 ms. -/
theorem link_down_reconnects (m : Nat) (cs : List NetCall)
    (hdown : ∀ c ∈ cs, c.down) (hchrono : Chrono 0 cs) :
    (∀ ev ∈ (runSend (Sys.boot m).net cs).2, ev.isPost = false)
    ∧ List.Chain' (fun p q : Nat × Nat => p.2 + 5000 < q.1) (attempts (Sys.boot m).net cs)
    ∧ (∀ (s : NetState) (snap : Snapshot) (t : Nat),
        s.lastAttempt < 4294967296 →
        SEND_PERIOD_MS ≤ u32sub (t % 4294967296) s.lastSendMs →
        2 ≤ (attempts s (downChecks snap 2000 7 t)).length
        ∧ (attempts s (downChecks snap 2000 7 t)).length ≤ 3
        ∧ ∀ ev ∈ (runSend s (downChecks snap 2000 7 t)).2, ev.isPost = false)
    ∧ (∀ snap : Snapshot,
        attempts (Sys.boot m).net (downChecks snap 2000 6 2000)
          = [(6000, 6000), (12000, 12000)]
        ∧ ∀ ev ∈ (runSend (Sys.boot m).net (downChecks snap 2000 6 2000)).2,
            ev.isPost = false) := by
  refine ⟨runSend_no_post _ cs hdown, ?_, ?_, ?_⟩
  · have h := attempts_spaced (Sys.boot m).net cs 0 0 0 rfl (le_refl _) hchrono
    exact (List.chain'_cons'.mp h).2
  · intro s snap t hla hdue
    rw [attempts_downChecks snap 7 s t (Or.inr hdue)]
    have h := cooldownCount_seven s.lastAttempt t hla
    exact ⟨h.1, h.2, runSend_no_post _ _ (downChecks_down snap 7 t)⟩
  · intro snap
    exact ⟨boot_attempts snap, runSend_no_post _ _ (downChecks_down snap 6 2000)⟩

/-- Witness of C7: due checks at 6000 ms and 12000 ms after boot with the link
down are in chronological order, and the attempts they start are spaced. -/
theorem link_down_reconnects_witness :
    Chrono 0 [downCheck ⟨0, 0, 0, 0, nan, nan, nan⟩ 6000,
        downCheck ⟨0, 0, 0, 0, nan, nan, nan⟩ 12000]
    ∧ List.Chain' (fun p q : Nat × Nat => p.2 + 5000 < q.1)
        (attempts (Sys.boot 0).net [downCheck ⟨0, 0, 0, 0, nan, nan, nan⟩ 6000,
          downCheck ⟨0, 0, 0, 0, nan, nan, nan⟩ 12000]) :=
  ⟨by simp [Chrono, downCheck],
   (link_down_reconnects 0 [downCheck ⟨0, 0, 0, 0, nan, nan, nan⟩ 6000,
        downCheck ⟨0, 0, 0, 0, nan, nan, nan⟩ 12000]
      (by
        intro c hc
        simp only [List.mem_cons, List.mem_singleton, List.not_mem_nil, or_false] at hc
        rcases hc with rfl | rfl <;> exact ⟨rfl, rfl⟩)
      (by simp [Chrono, downCheck])).2.1⟩

/-! ## `serviceEnvSensors` across a wrap of the millisecond counter -/

/-- C8, the code at the failing inputs. From the state after `setup()`, a tick at
clock `4294967000 = 2^32 - 296` reads both sensors and sets the deadlines to
`(4294967000 + 2000) mod 2^32 = 1704` and `(4294967000 + 750) mod 2^32 = 454`; the
tick at clock `4294967001`, one millisecond later, reads both sensors again.
In the other direction, after a tick at clock `4294964296 = 2^32 - 3000` (deadlines
`4294966296` and `4294965046`) a tick at clock `500`, which is 3500 ms later across
the wrap, reads neither sensor. -/
theorem serviceEnvSensors_wrap :
    (serviceEnvSensors (Sys.boot 0).env
        ⟨4294967000, val 25, val 40, 4294967000, val 36⟩).2 = [Event.dhtRead, Event.dsRead]
    ∧ (serviceEnvSensors (Sys.boot 0).env
        ⟨4294967000, val 25, val 40, 4294967000, val 36⟩).1.nextDhtMs = 1704
    ∧ (serviceEnvSensors (Sys.boot 0).env
        ⟨4294967000, val 25, val 40, 4294967000, val 36⟩).1.dsReadyAt = 454
    ∧ u32sub 4294967001 4294967000 = 1
    ∧ (serviceEnvSensors
        (serviceEnvSensors (Sys.boot 0).env
          ⟨4294967000, val 25, val 40, 4294967000, val 36⟩).1
        ⟨4294967001, val 25, val 40, 4294967001, val 36⟩).2
          = [Event.dhtRead, Event.dsRead]
    ∧ (serviceEnvSensors (Sys.boot 0).env
        ⟨4294964296, val 25, val 40, 4294964296, val 36⟩).2 = [Event.dhtRead, Event.dsRead]
    ∧ (serviceEnvSensors (Sys.boot 0).env
        ⟨4294964296, val 25, val 40, 4294964296, val 36⟩).1.nextDhtMs = 4294966296
    ∧ u32sub 500 4294964296 = 3500
    ∧ (serviceEnvSensors
        (serviceEnvSensors (Sys.boot 0).env
          ⟨4294964296, val 25, val 40, 4294964296, val 36⟩).1
        ⟨500, val 25, val 40, 500, val 36⟩).2 = [] := by
  refine ⟨?_, ?_, ?_, ?_, ?_, ?_, ?_, ?_, ?_⟩ <;>
    simp [serviceEnvSensors, Sys.boot, u32add, u32sub]

end HealthNode
